import Mathlib

/-!
# Highway-Driving: a shallow embedding of `src/main.cpp`

The planner works on C `double`s.  The embedding is generic in a linearly ordered
field `K` with a floor function (so that every definition runs on `ℚ`), and the
library functions of `<math.h>` the code calls are collected in a `MathEnv K`
record passed explicitly.  Undefined behaviour of the C++ program (an array index
outside its bounds, a `double` to `int` conversion outside the `int` range) is
modelled as the result `none`.
-/

namespace HighwayDriving

/-- The `<math.h>` functions used by `main.cpp`. -/
structure MathEnv (K : Type) where
  sqrt : K → K
  cos : K → K
  sin : K → K
  atan2 : K → K → K
  pi : K

/-- The real-number reading of `<math.h>`; `atan2 y x` is the argument of `x + y i`. -/
noncomputable def realMath : MathEnv ℝ where
  sqrt := Real.sqrt
  cos := Real.cos
  sin := Real.sin
  atan2 := fun y x => Complex.arg (Complex.mk x y)
  pi := Real.pi

section Arrays

variable {K : Type}

/-- A C array `double a[3]`. -/
structure Arr3 (K : Type) where
  a0 : K
  a1 : K
  a2 : K
deriving DecidableEq, Repr

/-- Reading `a[i]`; an index outside `0..2` is undefined behaviour. -/
def Arr3.get? (a : Arr3 K) (i : Int) : Option K :=
  if i = 0 then some a.a0
  else if i = 1 then some a.a1
  else if i = 2 then some a.a2
  else none

/-- Writing `a[i] = v`; an index outside `0..2` is undefined behaviour. -/
def Arr3.set? (a : Arr3 K) (i : Int) (v : K) : Option (Arr3 K) :=
  if i = 0 then some { a with a0 := v }
  else if i = 1 then some { a with a1 := v }
  else if i = 2 then some { a with a2 := v }
  else none

end Arrays

section Occupancy

variable {K : Type} [LinearOrderedField K] [FloorRing K]

/-- The conversion `(int)x` of a `double`: truncation toward zero, undefined when the
truncated value does not fit a 32-bit `int`. -/
def castInt (x : K) : Option Int :=
  let t : Int := if 0 ≤ x then ⌊x⌋ else ⌈x⌉
  if -2147483648 ≤ t ∧ t ≤ 2147483647 then some t else none

/-- The array index `(int)check_d/4`: the cast binds tighter than the division, which
is the truncating division of C on `int`. -/
def laneIndex (check_d : K) : Option Int :=
  (castInt check_d).map (fun t => Int.tdiv t 4)

/-- One entry `sensor_fusion[i]`: `[id, x, y, vx, vy, s, d]`. -/
structure TrackedObject (K : Type) where
  id : K
  x : K
  y : K
  vx : K
  vy : K
  s : K
  d : K

/-- The four per-lane arrays of lines 252-255. -/
structure LaneStats (K : Type) where
  rear_speed : Arr3 K
  front_speed : Arr3 K
  min_dist_front : Arr3 K
  min_dist_rear : Arr3 K

/-- The initial values of the four arrays (lines 252-255). -/
def LaneStats.init : LaneStats K where
  rear_speed := ⟨0, 0, 0⟩
  front_speed := ⟨50, 50, 50⟩
  min_dist_front := ⟨200, 200, 200⟩
  min_dist_rear := ⟨200, 200, 200⟩

/-- The value `check_speed` of line 263. -/
def checkSpeed (E : MathEnv K) (o : TrackedObject K) : K :=
  E.sqrt (o.vx * o.vx + o.vy * o.vy)

/-- The value `check_s` after line 265. -/
def checkS (E : MathEnv K) (prev_size : Nat) (o : TrackedObject K) : K :=
  o.s + (prev_size : K) * 0.02 * checkSpeed E o

/-- The branch condition of line 268: the object is handled as a rear vehicle. -/
def isRear (car_s check_s : K) : Bool := decide (car_s > check_s)

/-- The body of the loop over `sensor_fusion` (lines 259-283). -/
def occupancyStep (E : MathEnv K) (prev_size : Nat) (car_s : K)
    (st : LaneStats K) (o : TrackedObject K) : Option (LaneStats K) :=
  let check_speed := checkSpeed E o
  let check_s := checkS E prev_size o
  match laneIndex o.d with
  | none => none
  | some i =>
    if isRear car_s check_s then
      match st.min_dist_rear.get? i with
      | none => none
      | some cur =>
        if car_s - check_s < cur then
          match st.min_dist_rear.set? i (car_s - check_s), st.rear_speed.set? i check_speed with
          | some md, some sp => some { st with min_dist_rear := md, rear_speed := sp }
          | _, _ => none
        else some st
    else
      match st.min_dist_front.get? i with
      | none => none
      | some cur =>
        if check_s - car_s < cur then
          match st.min_dist_front.set? i (check_s - car_s), st.front_speed.set? i check_speed with
          | some md, some sp => some { st with min_dist_front := md, front_speed := sp }
          | _, _ => none
        else some st

/-- The loop of lines 257-284 from an arbitrary state of the arrays. -/
def occupancyLoop (E : MathEnv K) (prev_size : Nat) (car_s : K) :
    LaneStats K → List (TrackedObject K) → Option (LaneStats K)
  | st, [] => some st
  | st, o :: rest =>
    match occupancyStep E prev_size car_s st o with
    | none => none
    | some st1 => occupancyLoop E prev_size car_s st1 rest

/-- The lane occupancy reduction of lines 252-284. -/
def laneOccupancy (E : MathEnv K) (prev_size : Nat) (car_s : K)
    (sensor_fusion : List (TrackedObject K)) : Option (LaneStats K) :=
  occupancyLoop E prev_size car_s LaneStats.init sensor_fusion

end Occupancy

section Behavior

variable {K : Type} [LinearOrderedField K]

/-- The variables captured by reference in the handler: `lane` and `ref_vel`
(lines 202-203). -/
structure PlannerState (K : Type) where
  lane : Int
  ref_vel : K

/-- The planner state before the first message (lines 202-203). -/
def PlannerState.init : PlannerState K := ⟨1, 0⟩

/-- The lane indices of the three-lane road. -/
def validLane (lane : Int) : Prop := lane = 0 ∨ lane = 1 ∨ lane = 2

instance (lane : Int) : Decidable (validLane lane) := by
  unfold validLane; infer_instance

/-- The lane selection of lines 243 and 293-363: the value of `new_lane` that line 365
commits.  `lane` indexes `min_dist_front` and `front_speed`. -/
def selectLane (st : LaneStats K) (car_speed : K) (lane : Int) : Option Int :=
  match st.min_dist_front.get? lane, st.front_speed.get? lane with
  | some front_lane, some speed_lane =>
    let new_lane : Int := lane
    let new_lane : Int :=
      if front_lane < 60 then
        if lane = 2 ∨ lane = 0 then
          let new_lane : Int :=
            if st.min_dist_front.a1 > 30 ∧ st.min_dist_rear.a1 > 20
                ∧ car_speed > st.rear_speed.a1 - 5 then
              if front_lane < 30 then
                if st.front_speed.a1 > speed_lane then 1 else new_lane
              else 1
            else new_lane
          if st.min_dist_front.a1 > 180 ∧ st.min_dist_rear.a1 > 20 then 1 else new_lane
        else
          if front_lane < 30 then
            let new_lane : Int :=
              if st.min_dist_front.a2 > 45 ∧ st.min_dist_rear.a2 > 20
                  ∧ car_speed > st.rear_speed.a2 - 5 ∧ st.front_speed.a2 > speed_lane then
                if st.front_speed.a2 > st.front_speed.a0 then 2
                else if st.min_dist_front.a2 > st.min_dist_front.a0 + 60 then 2 else new_lane
              else new_lane
            let new_lane : Int :=
              if st.min_dist_front.a0 > 45 ∧ st.min_dist_rear.a0 > 20
                  ∧ car_speed > st.rear_speed.a0 - 5 ∧ st.front_speed.a0 > speed_lane then
                if st.front_speed.a0 > st.front_speed.a2 then 0
                else if st.min_dist_front.a0 > st.min_dist_front.a2 + 60 then 0 else new_lane
              else new_lane
            let new_lane : Int := if st.min_dist_front.a2 > 180 then 2 else new_lane
            if st.min_dist_front.a0 > 180 then 0 else new_lane
          else new_lane
      else new_lane
    some (if st.min_dist_front.a1 > 120 ∧ st.min_dist_rear.a1 > 20 then 1 else new_lane)
  | _, _ => none

/-- The speed control of lines 367-387; `front_speed_lane` is `front_speed[lane]` read
after the commit of line 365. -/
def speedControl (too_close : Bool) (front_speed_lane ref_vel : K) : K :=
  if too_close then
    if ref_vel > front_speed_lane then ref_vel - 0.224
    else if ref_vel < 49.5 then ref_vel + 0.112 else ref_vel
  else if ref_vel < 49.5 then ref_vel + 0.224 else ref_vel

/-- The decision part of one control cycle (lines 286-387) on the per-lane arrays. -/
def behavior (st : LaneStats K) (car_speed : K) (ps : PlannerState K) :
    Option (PlannerState K) :=
  match st.min_dist_front.get? ps.lane with
  | none => none
  | some front_lane =>
    let too_close : Bool := decide (front_lane < 30)
    match selectLane st car_speed ps.lane with
    | none => none
    | some lane =>
      match st.front_speed.get? lane with
      | none => none
      | some speed_lane => some ⟨lane, speedControl too_close speed_lane ps.ref_vel⟩

/-- The decision parts of successive control cycles, each with its own per-lane arrays
and ego speed. -/
def runCycles : PlannerState K → List (LaneStats K × K) → Option (PlannerState K)
  | ps, [] => some ps
  | ps, c :: rest =>
    match behavior c.1 c.2 ps with
    | none => none
    | some ps1 => runCycles ps1 rest

/-- The invariant of the planner state: a lane of the road and a reference speed within
one step of the thresholds `0` and `49.5`. -/
def speedInv (ps : PlannerState K) : Prop :=
  validLane ps.lane ∧ -0.224 < ps.ref_vel ∧ ps.ref_vel < 49.724

/-- The front speeds of the three lanes are not negative, as `sqrt` and the default 50
make them. -/
def frontSpeedsNonneg (st : LaneStats K) : Prop :=
  0 ≤ st.front_speed.a0 ∧ 0 ≤ st.front_speed.a1 ∧ 0 ≤ st.front_speed.a2

end Behavior

section Ramp

variable {K : Type} [LinearOrderedField K] [FloorRing K]

/-- The number of empty-road cycles during which the reference speed `v` still rises. -/
def rampCycles (v : K) : Nat := ⌈(49.5 - v) / 0.224⌉₊

end Ramp

section Path

variable {K : Type} [LinearOrderedField K]

/-- The copy loop of lines 462-466: `previous_path_y` is read at every index of
`previous_path_x`. -/
def copyPrevious : List K → List K → Option (List K × List K)
  | [], _ => some ([], [])
  | _ :: _, [] => none
  | x :: xs, y :: ys => (copyPrevious xs ys).map (fun p => (x :: p.1, y :: p.2))

/-- The body of the loop of lines 474-492, run `n` times from the cursor `x_add_on`;
`s` is the fitted spline and `target_dist` the value of line 470. -/
def samplePoints (E : MathEnv K) (s : K → K) (ref_x ref_y ref_yaw ref_vel target_dist : K) :
    Nat → K → List (K × K)
  | 0, _ => []
  | n + 1, x_add_on =>
    let N := target_dist / (0.02 * ref_vel / 2.24)
    let x_point := x_add_on + 30 / N
    let y_point := s x_point
    let x_ref := x_point
    let y_ref := y_point
    let x_world := x_ref * E.cos ref_yaw - y_ref * E.sin ref_yaw + ref_x
    let y_world := x_ref * E.sin ref_yaw + y_ref * E.cos ref_yaw + ref_y
    (x_world, y_world) :: samplePoints E s ref_x ref_y ref_yaw ref_vel target_dist n x_point

/-- The path assembly of lines 459-492, giving `(next_x_vals, next_y_vals)`.  The loop
bound `50 - previous_path_x.size()` is computed on `size_t`: with more than 50 previous
points it wraps around and the `int` counter overflows, which is undefined. -/
def pathAssembly (E : MathEnv K) (s : K → K) (ref_x ref_y ref_yaw ref_vel : K)
    (previous_path_x previous_path_y : List K) : Option (List K × List K) :=
  match copyPrevious previous_path_x previous_path_y with
  | none => none
  | some (next_x_vals, next_y_vals) =>
    if previous_path_x.length ≤ 50 then
      let target_x : K := 30
      let target_y := s target_x
      let target_dist := E.sqrt (target_x * target_x + target_y * target_y)
      let pts := samplePoints E s ref_x ref_y ref_yaw ref_vel target_dist
        (50 - previous_path_x.length) 0
      some (next_x_vals ++ pts.map Prod.fst, next_y_vals ++ pts.map Prod.snd)
    else none

end Path

section Inputs

/-- Per-lane arrays of a road whose three lanes each have a stopped vehicle 10 ahead. -/
def blockedRoad : LaneStats ℚ where
  rear_speed := ⟨0, 0, 0⟩
  front_speed := ⟨0, 0, 0⟩
  min_dist_front := ⟨10, 10, 10⟩
  min_dist_rear := ⟨200, 200, 200⟩

/-- Per-lane arrays with a vehicle 20 ahead in the centre lane and both outer lanes
empty. -/
def centreBlocked : LaneStats ℚ where
  rear_speed := ⟨0, 0, 0⟩
  front_speed := ⟨50, 30, 50⟩
  min_dist_front := ⟨200, 20, 200⟩
  min_dist_rear := ⟨200, 200, 200⟩

/-- Per-lane arrays with a vehicle 20 ahead in the centre lane, one 100 ahead in lane 0
and lane 2 empty. -/
def rightOpen : LaneStats ℚ where
  rear_speed := ⟨0, 0, 0⟩
  front_speed := ⟨40, 30, 50⟩
  min_dist_front := ⟨100, 20, 200⟩
  min_dist_rear := ⟨200, 200, 200⟩

end Inputs

section Objects

/-- A tracked object standing still at Frenet position `(s, d)`. -/
def stoppedObject {K : Type} [LinearOrderedField K] (s d : K) : TrackedObject K :=
  ⟨1, 0, 0, 0, 0, s, d⟩

end Objects

section Waypoints

variable {K : Type} [LinearOrderedField K]

/-- Reading `v[i]` of a `vector<double>` with an `int` index; an index outside
`0 .. v.size() - 1` is undefined behaviour. -/
def vecGet? (v : List K) (i : Int) : Option K :=
  if 0 ≤ i then v.get? i.toNat else none

/-- The function `distance` (lines 38-41). -/
def distance (E : MathEnv K) (x1 y1 x2 y2 : K) : K :=
  E.sqrt ((x2 - x1) * (x2 - x1) + (y2 - y1) * (y2 - y1))

/-- The loop of `ClosestWaypoint` (lines 50-60) with `n` iterations left, at index `i`. -/
def closestLoop (E : MathEnv K) (x y : K) (maps_x maps_y : List K) :
    Nat → Int → K → Int → Option Int
  | 0, _, _, closestWaypoint => some closestWaypoint
  | n + 1, i, closestLen, closestWaypoint =>
    match vecGet? maps_x i, vecGet? maps_y i with
    | some map_x, some map_y =>
      let dist := distance E x y map_x map_y
      if dist < closestLen then closestLoop E x y maps_x maps_y n (i + 1) dist i
      else closestLoop E x y maps_x maps_y n (i + 1) closestLen closestWaypoint
    | _, _ => none

/-- The function `ClosestWaypoint` (lines 45-62). -/
def ClosestWaypoint (E : MathEnv K) (x y : K) (maps_x maps_y : List K) : Option Int :=
  closestLoop E x y maps_x maps_y maps_x.length 0 100000 0

/-- The function `NextWaypoint` (lines 66-87). -/
def NextWaypoint (E : MathEnv K) (x y theta : K) (maps_x maps_y : List K) : Option Int :=
  match ClosestWaypoint E x y maps_x maps_y with
  | none => none
  | some closestWaypoint =>
    match vecGet? maps_x closestWaypoint, vecGet? maps_y closestWaypoint with
    | some map_x, some map_y =>
      let heading := E.atan2 (map_y - y) (map_x - x)
      let angle := |theta - heading|
      let angle := min (2 * E.pi - angle) angle
      if angle > E.pi / 4 then
        let closestWaypoint := closestWaypoint + 1
        if closestWaypoint = (maps_x.length : Int) then some 0 else some closestWaypoint
      else some closestWaypoint
    | _, _ => none

/-- The loop of lines 127-130 of `getFrenet` after `n` iterations: the sum of the
lengths of the first `n` segments. -/
def segmentSum (E : MathEnv K) (maps_x maps_y : List K) : Nat → Option K
  | 0 => some 0
  | n + 1 =>
    match segmentSum E maps_x maps_y n, vecGet? maps_x n, vecGet? maps_y n,
      vecGet? maps_x (n + 1), vecGet? maps_y (n + 1) with
    | some frenet_s, some x0, some y0, some x1, some y1 =>
      some (frenet_s + distance E x0 y0 x1 y1)
    | _, _, _, _, _ => none

/-- The function `getFrenet` (lines 90-136), returning `(frenet_s, frenet_d)`.  The
arguments `vx`, `vy` are unused, as in the source.  A zero denominator in `proj_norm`
gives a NaN or an infinity, which is no number of `K`: the result is `none`. -/
def getFrenet (E : MathEnv K) (x y theta _vx _vy : K) (maps_x maps_y : List K) :
    Option (K × K) :=
  match NextWaypoint E x y theta maps_x maps_y with
  | none => none
  | some next_wp =>
    let prev_wp : Int := if next_wp = 0 then (maps_x.length : Int) - 1 else next_wp - 1
    match vecGet? maps_x next_wp, vecGet? maps_x prev_wp, vecGet? maps_y next_wp,
      vecGet? maps_y prev_wp with
    | some next_x, some prev_x, some next_y, some prev_y =>
      let n_x := next_x - prev_x
      let n_y := next_y - prev_y
      let x_x := x - prev_x
      let x_y := y - prev_y
      if n_x * n_x + n_y * n_y = 0 then none
      else
        let proj_norm := (x_x * n_x + x_y * n_y) / (n_x * n_x + n_y * n_y)
        let proj_x := proj_norm * n_x
        let proj_y := proj_norm * n_y
        let frenet_d := distance E x_x x_y proj_x proj_y
        let center_x := 1000 - prev_x
        let center_y := 2000 - prev_y
        let centerToPos := distance E center_x center_y x_x x_y
        let centerToRef := distance E center_x center_y proj_x proj_y
        let frenet_d := if centerToPos ≤ centerToRef then frenet_d * -1 else frenet_d
        match segmentSum E maps_x maps_y prev_wp.toNat with
        | none => none
        | some frenet_s => some (frenet_s + distance E 0 0 proj_x proj_y, frenet_d)
    | _, _, _, _ => none

/-- The `while` loop of `getXY` (lines 143-146) with `n` evaluations of its condition
left.  The condition reads `maps_s[prev_wp+1]` before it tests `prev_wp` against
`maps_s.size()-1`.  The loop is entered with `n = maps_s.size() + 1`; the read at index
`maps_s.size()` fails before `n` reaches 0. -/
def scanLoop (s : K) (maps_s : List K) : Nat → Int → Option Int
  | 0, _ => none
  | n + 1, prev_wp =>
    match vecGet? maps_s (prev_wp + 1) with
    | none => none
    | some s_next =>
      if s > s_next ∧ prev_wp < (maps_s.length : Int) - 1 then
        scanLoop s maps_s n (prev_wp + 1)
      else some prev_wp

/-- The function `getXY` (lines 139-164), returning `(x, y)`. -/
def getXY (E : MathEnv K) (s d : K) (maps_s maps_x maps_y : List K) : Option (K × K) :=
  match scanLoop s maps_s (maps_s.length + 1) (-1) with
  | none => none
  | some prev_wp =>
    if maps_x.length = 0 then none
    else
      let wp2 : Int := (prev_wp + 1) % (maps_x.length : Int)
      match vecGet? maps_y wp2, vecGet? maps_y prev_wp, vecGet? maps_x wp2,
        vecGet? maps_x prev_wp, vecGet? maps_s prev_wp with
      | some y2, some y1, some x2, some x1, some s1 =>
        let heading := E.atan2 (y2 - y1) (x2 - x1)
        let seg_s := s - s1
        let seg_x := x1 + seg_s * E.cos heading
        let seg_y := y1 + seg_s * E.sin heading
        let perp_heading := heading - E.pi / 2
        let x := seg_x + d * E.cos perp_heading
        let y := seg_y + d * E.sin perp_heading
        some (x, y)
      | _, _, _, _, _ => none

/-- The waypoint map is ordered by strictly increasing `s`, starting at 0, and each
`s` is the arc length accumulated along the waypoints before it. -/
def arcLengthMap (E : MathEnv K) (maps_s maps_x maps_y : List K) : Prop :=
  maps_s.length = maps_x.length ∧ maps_y.length = maps_x.length ∧
  maps_s.getD 0 0 = 0 ∧
  ∀ k : Nat, k + 1 < maps_x.length →
    maps_s.getD k 0 < maps_s.getD (k + 1) 0 ∧
    maps_s.getD (k + 1) 0 = maps_s.getD k 0 +
      distance E (maps_x.getD k 0) (maps_y.getD k 0)
        (maps_x.getD (k + 1) 0) (maps_y.getD (k + 1) 0)

/-- The round trip: `getXY` applied to the result of `getFrenet`. -/
def frenetRoundTrip (E : MathEnv K) (x y theta : K) (maps_s maps_x maps_y : List K) :
    Option (K × K) :=
  match getFrenet E x y theta 0 0 maps_x maps_y with
  | none => none
  | some sd => getXY E sd.1 sd.2 maps_s maps_x maps_y

end Waypoints

section FoldedTrack

variable {K : Type} [LinearOrderedField K]

/-- The x coordinates of a track that runs along the x axis and comes back one unit
above it: waypoints (0,0), (10,0), (10,1), (5,1), (0,1). -/
def foldedX : List K := [0, 10, 10, 5, 0]

/-- The y coordinates of the folded track. -/
def foldedY : List K := [0, 0, 1, 1, 1]

/-- The cumulative arc lengths of the folded track. -/
def foldedS : List K := [0, 10, 11, 16, 21]

end FoldedTrack

section StraightTrack

variable {K : Type} [LinearOrderedField K]

/-- The x coordinates of a straight track of two waypoints, (0,0) and (10,0). -/
def straightX : List K := [0, 10]

/-- The y coordinates of the straight track. -/
def straightY : List K := [0, 0]

/-- The cumulative arc lengths of the straight track. -/
def straightS : List K := [0, 10]

end StraightTrack

section MoreInputs

/-- Per-lane arrays with a vehicle 40 ahead in lane 0 driving at 30 and a slower vehicle,
at 20, 100 ahead in the centre lane. -/
def slowCentre : LaneStats ℚ where
  rear_speed := ⟨0, 0, 0⟩
  front_speed := ⟨30, 20, 50⟩
  min_dist_front := ⟨40, 100, 200⟩
  min_dist_rear := ⟨200, 200, 200⟩

end MoreInputs

section Anchors

variable {K : Type} [LinearOrderedField K]

/-- The function `deg2rad` (line 20). -/
def deg2rad (E : MathEnv K) (x : K) : K := x * E.pi / 180

/-- The variables `ptsx`, `ptsy`, `ref_x`, `ref_y`, `ref_yaw` of lines 389-393. -/
structure AnchorState (K : Type) where
  ptsx : List K
  ptsy : List K
  ref_x : K
  ref_y : K
  ref_yaw : K

/-- The first two anchor points and the reference pose (lines 389-415); `car_yaw` is
the telemetry yaw, in degrees. -/
def startAnchors (E : MathEnv K) (car_x car_y car_yaw : K)
    (previous_path_x previous_path_y : List K) : Option (AnchorState K) :=
  let prev_size : Int := previous_path_x.length
  let ref_x := car_x
  let ref_y := car_y
  let ref_yaw := deg2rad E car_yaw
  if prev_size < 2 then
    let prev_car_x := car_x - E.cos car_yaw
    let prev_car_y := car_y - E.sin car_yaw
    some ⟨[prev_car_x, car_x], [prev_car_y, car_y], ref_x, ref_y, ref_yaw⟩
  else
    match vecGet? previous_path_x (prev_size - 1), vecGet? previous_path_y (prev_size - 1),
      vecGet? previous_path_x (prev_size - 2), vecGet? previous_path_y (prev_size - 2) with
    | some ref_x, some ref_y, some ref_x_prev, some ref_y_prev =>
      let ref_yaw := E.atan2 (ref_y - ref_y_prev) (ref_x - ref_x_prev)
      some ⟨[ref_x_prev, ref_x], [ref_y_prev, ref_y], ref_x, ref_y, ref_yaw⟩
    | _, _, _, _ => none

/-- The two far anchor points of lines 417-436, at `car_s + 30` and `car_s + 60` in
the middle of the target lane. -/
def addFarAnchors (E : MathEnv K) (car_s : K) (lane : Int) (maps_s maps_x maps_y : List K)
    (a : AnchorState K) : Option (AnchorState K) :=
  match getXY E (car_s + 30 * 1 * (0 + 1)) ((2 + 4 * lane : Int) : K) maps_s maps_x maps_y,
    getXY E (car_s + 30 * 1 * (1 + 1)) ((2 + 4 * lane : Int) : K) maps_s maps_x maps_y with
  | some p0, some p1 =>
    some { a with ptsx := a.ptsx ++ [p0.1, p1.1], ptsy := a.ptsy ++ [p0.2, p1.2] }
  | _, _ => none

/-- The body of the loop of lines 444-450: one anchor point moved to the frame of the
reference pose. -/
def localPoint (E : MathEnv K) (ref_x ref_y ref_yaw px py : K) : K × K :=
  let shift_x := px - ref_x
  let shift_y := py - ref_y
  (shift_x * E.cos ref_yaw + shift_y * E.sin ref_yaw,
   shift_x * E.sin (-1 * ref_yaw) + shift_y * E.cos ref_yaw)

/-- The loop of lines 444-450 over the indices of `ptsx`; `ptsy` is read and written at
the same indices. -/
def toLocalFrame (E : MathEnv K) (ref_x ref_y ref_yaw : K) :
    List K → List K → Option (List K × List K)
  | [], ptsy => some ([], ptsy)
  | _ :: _, [] => none
  | px :: ptsx, py :: ptsy =>
    (toLocalFrame E ref_x ref_y ref_yaw ptsx ptsy).map
      (fun p => ((localPoint E ref_x ref_y ref_yaw px py).1 :: p.1,
                 (localPoint E ref_x ref_y ref_yaw px py).2 :: p.2))

/-- Lines 481-488: a point `(x_ref, y_ref)` of the reference frame moved back to world
coordinates. -/
def worldPoint (E : MathEnv K) (ref_x ref_y ref_yaw x_ref y_ref : K) : K × K :=
  (x_ref * E.cos ref_yaw - y_ref * E.sin ref_yaw + ref_x,
   x_ref * E.sin ref_yaw + y_ref * E.cos ref_yaw + ref_y)

end Anchors

section SingleWaypoint

variable {K : Type} [LinearOrderedField K]

/-- The x coordinates of a map with the single waypoint (0, 0). -/
def singleX : List K := [0]

/-- The y coordinates of the single-waypoint map. -/
def singleY : List K := [0]

end SingleWaypoint

section FarWaypoints

variable {K : Type} [LinearOrderedField K]

/-- The x coordinates of two waypoints, (300000, 0) and (200000, 0), both more than
100000 away from the origin. -/
def farX : List K := [300000, 200000]

/-- The y coordinates of the two far waypoints. -/
def farY : List K := [0, 0]

end FarWaypoints

section NearestVehicle

variable {K : Type} [LinearOrderedField K] [FloorRing K]

/-- Specification side: the objects of lane `L` that are not classified as rear, in list
order, each as its distance ahead `s_future - ego_s` and its speed. -/
def frontCandidates (E : MathEnv K) (prev_size : Nat) (car_s : K) (L : Int)
    (objs : List (TrackedObject K)) : List (K × K) :=
  (objs.filter (fun o =>
      decide (laneIndex o.d = some L) && !isRear car_s (checkS E prev_size o))).map
    (fun o => (checkS E prev_size o - car_s, checkSpeed E o))

/-- Specification side: the objects of lane `L` that are classified as rear, in list
order, each as its distance behind `ego_s - s_future` and its speed. -/
def rearCandidates (E : MathEnv K) (prev_size : Nat) (car_s : K) (L : Int)
    (objs : List (TrackedObject K)) : List (K × K) :=
  (objs.filter (fun o =>
      decide (laneIndex o.d = some L) && isRear car_s (checkS E prev_size o))).map
    (fun o => (car_s - checkS E prev_size o, checkSpeed E o))

/-- Specification side: the minimum of `d0` and of the distances of the candidates. -/
def nearestDistance (d0 : K) (cands : List (K × K)) : K :=
  (cands.map Prod.fst).foldr min d0

/-- Specification side: the speed of the first candidate whose distance is the minimum,
when that minimum is below `d0`, and `v0` otherwise. -/
def nearestSpeed (d0 v0 : K) (cands : List (K × K)) : K :=
  if nearestDistance d0 cands < d0 then
    match cands.find? (fun p => decide (p.1 = nearestDistance d0 cands)) with
    | some p => p.2
    | none => v0
  else v0

/-- Specification side, read word for word: the speed of the first candidate whose
distance is below `d0`, and `v0` when there is none. -/
def firstBelowSpeed (d0 v0 : K) (cands : List (K × K)) : K :=
  match cands.find? (fun p => decide (p.1 < d0)) with
  | some p => p.2
  | none => v0

/-- The pair (distance, speed) one lane and one side of the reduction holds after the
candidates, updated on a strictly smaller distance only (lines 270-274, 278-282). -/
def trackNearest : K × K → List (K × K) → K × K
  | acc, [] => acc
  | acc, p :: rest => trackNearest (if p.1 < acc.1 then p else acc) rest

/-- A tracked object at Frenet position `(s, d)` moving at speed `v` along x. -/
def movingObject (s d v : K) : TrackedObject K :=
  ⟨1, 0, 0, v, 0, s, d⟩

end NearestVehicle

section CoincidentWaypoints

variable {K : Type} [LinearOrderedField K]

/-- The x coordinates of a map of two waypoints at the same place, (0, 0) and (0, 0):
the segment between them has length zero. -/
def coincidentX : List K := [0, 0]

/-- The y coordinates of the map of two coincident waypoints. -/
def coincidentY : List K := [0, 0]

end CoincidentWaypoints

/-! ## Theorems -/

theorem arr3_get_of_validLane {K : Type} (a : Arr3 K) (lane : Int) (h : validLane lane) :
    ∃ v, a.get? lane = some v := by
  rcases h with h | h | h <;> subst h <;> simp [Arr3.get?]

section BehaviorLemmas

variable {K : Type} [LinearOrderedField K]

theorem validLane_ite (c : Prop) [Decidable c] {a b : Int}
    (ha : validLane a) (hb : validLane b) : validLane (if c then a else b) := by
  split <;> assumption

theorem selectLane_valid (st : LaneStats K) (car_speed : K) (lane : Int)
    (h : validLane lane) :
    ∃ l, selectLane st car_speed lane = some l ∧ validLane l := by
  have v0 : validLane 0 := Or.inl rfl
  have v1 : validLane 1 := Or.inr (Or.inl rfl)
  have v2 : validLane 2 := Or.inr (Or.inr rfl)
  rcases h with h | h | h <;> subst h
  · refine ⟨_, rfl, ?_⟩
    repeat' first | assumption | apply validLane_ite
  · refine ⟨_, rfl, ?_⟩
    repeat' first | assumption | apply validLane_ite
  · refine ⟨_, rfl, ?_⟩
    repeat' first | assumption | apply validLane_ite

theorem front_speed_get_nonneg (st : LaneStats K) (lane : Int) (v : K)
    (h0 : 0 ≤ st.front_speed.a0) (h1 : 0 ≤ st.front_speed.a1) (h2 : 0 ≤ st.front_speed.a2)
    (h : st.front_speed.get? lane = some v) : 0 ≤ v := by
  unfold Arr3.get? at h
  split_ifs at h <;> simp at h <;> subst h <;> assumption

theorem speedControl_bounds (too_close : Bool) (fs v : K) (hfs : 0 ≤ fs)
    (hlo : -0.224 < v) (hhi : v < 49.724) :
    -0.224 < speedControl too_close fs v ∧ speedControl too_close fs v < 49.724 := by
  unfold speedControl
  split_ifs <;> constructor <;> norm_num at * <;> linarith

end BehaviorLemmas

section CycleLemmas

variable {K : Type} [LinearOrderedField K]

theorem behavior_preserves (st : LaneStats K) (car_speed : K) (ps : PlannerState K)
    (hst : frontSpeedsNonneg st) (hps : speedInv ps) :
    ∃ ps1, behavior st car_speed ps = some ps1 ∧ speedInv ps1 := by
  obtain ⟨hl, hlo, hhi⟩ := hps
  obtain ⟨d, hd⟩ := arr3_get_of_validLane st.min_dist_front ps.lane hl
  obtain ⟨l, hsel, hlv⟩ := selectLane_valid st car_speed ps.lane hl
  obtain ⟨fs, hfs⟩ := arr3_get_of_validLane st.front_speed l hlv
  have hnn : 0 ≤ fs := front_speed_get_nonneg st l fs hst.1 hst.2.1 hst.2.2 hfs
  refine ⟨⟨l, speedControl (decide (d < 30)) fs ps.ref_vel⟩, ?_, hlv, ?_⟩
  · simp [behavior, hd, hsel, hfs]
  · exact speedControl_bounds _ fs ps.ref_vel hnn hlo hhi

theorem runCycles_preserves (inputs : List (LaneStats K × K)) :
    ∀ ps : PlannerState K, speedInv ps → (∀ c ∈ inputs, frontSpeedsNonneg c.1) →
      ∃ ps1, runCycles ps inputs = some ps1 ∧ speedInv ps1 := by
  induction inputs with
  | nil => intro ps hps _; exact ⟨ps, rfl, hps⟩
  | cons c rest ih =>
    intro ps hps hin
    obtain ⟨ps1, h1, hinv1⟩ :=
      behavior_preserves c.1 c.2 ps (hin c (List.mem_cons_self _ _)) hps
    obtain ⟨ps2, h2, hinv2⟩ :=
      ih ps1 hinv1 (fun c1 hc1 => hin c1 (List.mem_cons_of_mem _ hc1))
    exact ⟨ps2, by simp [runCycles, h1, h2], hinv2⟩

theorem speedInv_init : speedInv (PlannerState.init : PlannerState K) := by
  refine ⟨Or.inr (Or.inl rfl), ?_, ?_⟩ <;> simp [PlannerState.init] <;> norm_num

/-- One cycle on the default arrays of an empty road. -/
theorem behavior_empty (car_speed v : K) (lane : Int) (h : validLane lane) :
    behavior LaneStats.init car_speed ⟨lane, v⟩
      = some ⟨1, if v < 49.5 then v + 0.224 else v⟩ := by
  have hsel : selectLane (LaneStats.init : LaneStats K) car_speed lane = some 1 := by
    rcases h with h | h | h <;> subst h <;>
      simp [selectLane, LaneStats.init, Arr3.get?] <;> norm_num
  have hget : (LaneStats.init : LaneStats K).min_dist_front.get? lane = some 200 := by
    rcases h with h | h | h <;> subst h <;> simp [LaneStats.init, Arr3.get?]
  have hfs : (LaneStats.init : LaneStats K).front_speed.get? 1 = some 50 := by
    simp [LaneStats.init, Arr3.get?]
  have h30 : ¬ ((200 : K) < 30) := by norm_num
  simp only [behavior, hget, hsel, hfs, speedControl, h30, decide_False]
  simp

theorem frontSpeedsNonneg_iff (st : LaneStats K) :
    frontSpeedsNonneg st ↔ ∀ (j : Int) (v : K), st.front_speed.get? j = some v → 0 ≤ v := by
  constructor
  · intro h j v hv
    exact front_speed_get_nonneg st j v h.1 h.2.1 h.2.2 hv
  · intro h
    exact ⟨h 0 _ (by simp [Arr3.get?]), h 1 _ (by simp [Arr3.get?]),
      h 2 _ (by simp [Arr3.get?])⟩

end CycleLemmas

section EmptyRoad

variable {K : Type} [LinearOrderedField K] [FloorRing K]

theorem rampCycles_of_lt (v : K) (h : v < 49.5) :
    rampCycles (v + 0.224) + 1 = rampCycles v := by
  unfold rampCycles
  have e : (49.5 - v) / 0.224 = (49.5 - (v + 0.224)) / 0.224 + 1 := by
    field_simp
    ring
  have hpos : 0 < (49.5 - v) / 0.224 := by
    apply div_pos <;> norm_num
    linarith
  by_cases h1 : 0 ≤ (49.5 - (v + 0.224)) / 0.224
  · rw [e, Nat.ceil_add_one h1]
  · have h0 : ⌈(49.5 - (v + 0.224)) / 0.224⌉₊ = 0 :=
      Nat.ceil_eq_zero.mpr (le_of_lt (not_le.mp h1))
    have h2 : ⌈(49.5 - v) / 0.224⌉₊ = 1 := by
      rw [Nat.ceil_eq_iff (by norm_num)]
      refine ⟨by simpa using hpos, ?_⟩
      rw [e]
      have := not_le.mp h1
      push_cast
      linarith
    rw [h0, h2]

theorem rampCycles_of_ge (v : K) (h : ¬ v < 49.5) : rampCycles v = 0 := by
  unfold rampCycles
  rw [Nat.ceil_eq_zero]
  apply div_nonpos_of_nonpos_of_nonneg <;> norm_num
  linarith [not_lt.mp h]

/-- Cycles on the default arrays: the lane becomes 1 with the first cycle and the speed
rises by 0.224 during the first `rampCycles v` cycles only. -/
theorem runCycles_empty (speeds : List K) :
    ∀ (lane : Int) (v : K), validLane lane →
      runCycles ⟨lane, v⟩ (speeds.map (fun car_speed => (LaneStats.init, car_speed)))
        = some ⟨if speeds = [] then lane else 1,
            v + 0.224 * ((min speeds.length (rampCycles v) : Nat) : K)⟩ := by
  induction speeds with
  | nil => intro lane v _; simp [runCycles]
  | cons c rest ih =>
    intro lane v hl
    have ih1 := ih 1 (if v < 49.5 then v + 0.224 else v) (Or.inr (Or.inl rfl))
    simp only [List.map_cons, runCycles, behavior_empty c v lane hl, ih1]
    by_cases hv : v < 49.5
    · have hr := rampCycles_of_lt v hv
      have hm : min (rest.length + 1) (rampCycles v)
          = min rest.length (rampCycles (v + 0.224)) + 1 := by
        rw [← hr]; omega
      simp only [hv, if_true, List.length_cons, hm]
      by_cases hrest : rest = []
      · simp [hrest]
      · simp only [hrest, if_false, Nat.cast_add, Nat.cast_one]
        congr 2
        ring
    · have hr := rampCycles_of_ge v hv
      simp only [hv, if_false, hr, List.length_cons]
      by_cases hrest : rest = [] <;> simp [hrest]

end EmptyRoad

section SpeedRamp

/-- C1 (as stated, refuted): from the initial state, two cycles behind a stopped
vehicle give a negative reference speed, and 221 cycles on an empty road give a
reference speed above 49.5. -/
theorem C1_bound_violated :
    (∃ ps, runCycles (PlannerState.init : PlannerState ℚ)
        [(blockedRoad, 0), (blockedRoad, 0)] = some ps ∧ ps.ref_vel < 0) ∧
    (∃ ps, runCycles (PlannerState.init : PlannerState ℚ)
        ((List.replicate 221 (0 : ℚ)).map (fun car_speed => (LaneStats.init, car_speed)))
          = some ps ∧ 49.5 < ps.ref_vel) := by
  constructor
  · refine ⟨⟨1, -0.112⟩, ?_, by norm_num⟩
    simp [runCycles, behavior, selectLane, speedControl, blockedRoad, PlannerState.init,
      Arr3.get?]
    norm_num
  · have hr : rampCycles (0 : ℚ) = 221 := by
      unfold rampCycles
      rw [Nat.ceil_eq_iff (by norm_num)]
      norm_num
    refine ⟨_, runCycles_empty (List.replicate 221 (0 : ℚ)) 1 0 (Or.inr (Or.inl rfl)), ?_⟩
    simp only [hr, List.length_replicate]
    norm_num

/-- C1 (amended): from the initial state and for every finite sequence of cycles whose
per-lane front speeds are not negative, every cycle completes, the lane stays in
0..2 and the reference speed stays strictly between -0.224 and 49.724. -/
theorem C1_ref_vel_bounds {K : Type} [LinearOrderedField K]
    (inputs : List (LaneStats K × K))
    (h : ∀ c ∈ inputs, frontSpeedsNonneg c.1) :
    ∃ ps, runCycles (PlannerState.init : PlannerState K) inputs = some ps ∧
      validLane ps.lane ∧ -0.224 < ps.ref_vel ∧ ps.ref_vel < 49.724 :=
  runCycles_preserves inputs PlannerState.init speedInv_init h

theorem C1_ref_vel_bounds_witness :
    (∀ c ∈ [(blockedRoad, (0 : ℚ)), (blockedRoad, 0)], frontSpeedsNonneg c.1) ∧
    ∃ ps, runCycles (PlannerState.init : PlannerState ℚ)
        [(blockedRoad, 0), (blockedRoad, 0)] = some ps ∧
      validLane ps.lane ∧ -0.224 < ps.ref_vel ∧ ps.ref_vel < 49.724 :=
  have hin : ∀ c ∈ [(blockedRoad, (0 : ℚ)), (blockedRoad, 0)], frontSpeedsNonneg c.1 := by
    intro c hc
    simp at hc
    subst hc
    simp [frontSpeedsNonneg, blockedRoad]
  ⟨hin, C1_ref_vel_bounds _ hin⟩

end SpeedRamp

theorem copyPrevious_eq {K : Type} (xs : List K) :
    ∀ ys : List K, xs.length ≤ ys.length →
      copyPrevious xs ys = some (xs, ys.take xs.length) := by
  induction xs with
  | nil => intro ys _; simp [copyPrevious]
  | cons x xs ih =>
    intro ys h
    cases ys with
    | nil => simp at h
    | cons y ys =>
      have h1 : xs.length ≤ ys.length := by simpa using h
      simp [copyPrevious, ih ys h1]

section PathLemmas

variable {K : Type} [LinearOrderedField K]

theorem samplePoints_length (E : MathEnv K) (s : K → K)
    (ref_x ref_y ref_yaw ref_vel target_dist : K) (n : Nat) :
    ∀ x_add_on : K,
      (samplePoints E s ref_x ref_y ref_yaw ref_vel target_dist n x_add_on).length = n := by
  induction n with
  | zero => intro x; simp [samplePoints]
  | succ n ih => intro x; simp [samplePoints, ih]

theorem pathAssembly_eq (E : MathEnv K) (s : K → K) (ref_x ref_y ref_yaw ref_vel : K)
    (previous_path_x previous_path_y : List K)
    (hlen : previous_path_x.length = previous_path_y.length)
    (h50 : previous_path_x.length ≤ 50) :
    pathAssembly E s ref_x ref_y ref_yaw ref_vel previous_path_x previous_path_y
      = some
        (previous_path_x ++
          (samplePoints E s ref_x ref_y ref_yaw ref_vel (E.sqrt (30 * 30 + s 30 * s 30))
            (50 - previous_path_x.length) 0).map Prod.fst,
         previous_path_y ++
          (samplePoints E s ref_x ref_y ref_yaw ref_vel (E.sqrt (30 * 30 + s 30 * s 30))
            (50 - previous_path_x.length) 0).map Prod.snd) := by
  have hc := copyPrevious_eq previous_path_x previous_path_y (le_of_eq hlen)
  rw [hlen, List.take_length] at hc
  simp only [pathAssembly, hc, h50, if_true]

end PathLemmas

section PathClaims

variable {K : Type} [LinearOrderedField K]

/-- C2: for every cycle whose previous path has `k ≤ 50` points (as many x as y
values), the path assembly completes and both emitted sequences have exactly 50
entries, whatever the spline, reference pose and reference speed are. -/
theorem C2_path_length (E : MathEnv K) (s : K → K) (ref_x ref_y ref_yaw ref_vel : K)
    (previous_path_x previous_path_y : List K)
    (hlen : previous_path_x.length = previous_path_y.length)
    (h50 : previous_path_x.length ≤ 50) :
    ∃ next_x_vals next_y_vals,
      pathAssembly E s ref_x ref_y ref_yaw ref_vel previous_path_x previous_path_y
        = some (next_x_vals, next_y_vals) ∧
      next_x_vals.length = 50 ∧ next_y_vals.length = 50 := by
  refine ⟨_, _, pathAssembly_eq E s ref_x ref_y ref_yaw ref_vel _ _ hlen h50, ?_, ?_⟩
  · simp only [List.length_append, List.length_map, samplePoints_length]
    omega
  · simp only [List.length_append, List.length_map, samplePoints_length]
    omega

theorem C2_path_length_witness :
    [(1 : ℝ), 2].length = [(3 : ℝ), 4].length ∧ [(1 : ℝ), 2].length ≤ 50 ∧
    ∃ next_x_vals next_y_vals,
      pathAssembly realMath (fun x => x) 0 0 0 10
          [(1 : ℝ), 2] [(3 : ℝ), 4]
        = some (next_x_vals, next_y_vals) ∧
      next_x_vals.length = 50 ∧ next_y_vals.length = 50 :=
  ⟨rfl, by decide, C2_path_length _ _ 0 0 0 10 [1, 2] [3, 4] rfl (by decide)⟩

/-- C3: for every previous path of `k ≤ 50` points, the first `k` entries of the
emitted x and y sequences are the previous path's x and y values, in order and
unchanged. -/
theorem C3_prefix_is_previous_path (E : MathEnv K) (s : K → K)
    (ref_x ref_y ref_yaw ref_vel : K) (previous_path_x previous_path_y : List K)
    (hlen : previous_path_x.length = previous_path_y.length)
    (h50 : previous_path_x.length ≤ 50) :
    ∃ next_x_vals next_y_vals,
      pathAssembly E s ref_x ref_y ref_yaw ref_vel previous_path_x previous_path_y
        = some (next_x_vals, next_y_vals) ∧
      next_x_vals.take previous_path_x.length = previous_path_x ∧
      next_y_vals.take previous_path_x.length = previous_path_y := by
  refine ⟨_, _, pathAssembly_eq E s ref_x ref_y ref_yaw ref_vel _ _ hlen h50, ?_, ?_⟩
  · simp
  · rw [hlen]; simp

theorem C3_prefix_is_previous_path_witness :
    [(1 : ℝ), 2].length = [(3 : ℝ), 4].length ∧ [(1 : ℝ), 2].length ≤ 50 ∧
    ∃ next_x_vals next_y_vals,
      pathAssembly realMath (fun x => x) 0 0 0 10
          [(1 : ℝ), 2] [(3 : ℝ), 4]
        = some (next_x_vals, next_y_vals) ∧
      next_x_vals.take [(1 : ℝ), 2].length = [1, 2] ∧
      next_y_vals.take [(1 : ℝ), 2].length = [3, 4] :=
  ⟨rfl, by decide, C3_prefix_is_previous_path _ _ 0 0 0 10 [1, 2] [3, 4] rfl (by decide)⟩

end PathClaims

section EmptyWorld

/-- C4 (as stated, refuted): with no tracked object, 221 cycles from lane 1 and
reference speed 0 end with a reference speed of 49.504, above 49.5. -/
theorem C4_cap_exceeded :
    ∃ st ps, laneOccupancy realMath 0 0 [] = some st ∧
      runCycles (⟨1, 0⟩ : PlannerState ℝ)
        ((List.replicate 221 (0 : ℝ)).map (fun car_speed => (st, car_speed))) = some ps ∧
      ps.ref_vel = 49.504 ∧ 49.5 < ps.ref_vel := by
  have hr : rampCycles (0 : ℝ) = 221 := by
    unfold rampCycles
    rw [Nat.ceil_eq_iff (by norm_num)]
    norm_num
  refine ⟨LaneStats.init, _, rfl,
    runCycles_empty (List.replicate 221 (0 : ℝ)) 1 0 (Or.inr (Or.inl rfl)), ?_, ?_⟩ <;>
  · simp only [hr, List.length_replicate]
    norm_num

/-- C4 (amended): with no tracked object, for every starting lane in 0..2 and every
starting reference speed `v`, one cycle completes, commits lane 1 and leaves the
reference speed at `v + 0.224` if `v < 49.5` and at `v` otherwise: the speed rises by
0.224 per cycle while it is below 49.5 and is never cut back to 49.5. -/
theorem C4_empty_world {K : Type} [LinearOrderedField K] [FloorRing K]
    (E : MathEnv K) (prev_size : Nat) (car_s car_speed : K) (lane : Int) (v : K)
    (hl : validLane lane) :
    ∃ st, laneOccupancy E prev_size car_s [] = some st ∧
      behavior st car_speed ⟨lane, v⟩
        = some ⟨1, if v < 49.5 then v + 0.224 else v⟩ :=
  ⟨LaneStats.init, rfl, behavior_empty car_speed v lane hl⟩

theorem C4_empty_world_witness :
    validLane 2 ∧
    ∃ st, laneOccupancy realMath 0 (100 : ℝ) [] = some st ∧
      behavior st 3 (⟨2, 7⟩ : PlannerState ℝ)
        = some ⟨1, if (7 : ℝ) < 49.5 then 7 + 0.224 else 7⟩ :=
  ⟨by decide, C4_empty_world realMath 0 100 3 2 7 (by decide)⟩

end EmptyWorld

section OpenLane

/-- C5 (as stated, refuted): in lane 1 with front clearance 20 and lane 2 empty (front
clearance 200), an equally empty lane 0 makes the planner commit lane 0, not 2. -/
theorem C5_left_lane_wins :
    centreBlocked.min_dist_front.a1 = 20 ∧ centreBlocked.min_dist_front.a2 > 180 ∧
    ∃ ps, behavior centreBlocked 40 (⟨1, 40⟩ : PlannerState ℚ) = some ps ∧ ps.lane = 0 := by
  refine ⟨rfl, by norm_num [centreBlocked], ⟨0, 40 + 0.112⟩, ?_, rfl⟩
  · simp [behavior, selectLane, speedControl, centreBlocked, Arr3.get?]
    norm_num

/-- C5 (amended): in lane 1 with front clearance 20 and lane 2 front clearance above
180, the cycle completes and commits lane 2 when the front clearance of lane 0 is at
most 180, and lane 0 when it exceeds 180, for every value of the other inputs. -/
theorem C5_open_lane {K : Type} [LinearOrderedField K]
    (st : LaneStats K) (car_speed ref_vel : K)
    (h1 : st.min_dist_front.a1 = 20) (h2 : st.min_dist_front.a2 > 180) :
    ∃ ps, behavior st car_speed ⟨1, ref_vel⟩ = some ps ∧
      ps.lane = if st.min_dist_front.a0 > 180 then 0 else 2 := by
  have hsel : selectLane st car_speed 1
      = some (if st.min_dist_front.a0 > 180 then 0 else 2) := by
    have h60 : (20 : K) < 60 := by norm_num
    have h30 : (20 : K) < 30 := by norm_num
    have h120 : ¬ ((20 : K) > 120) := by norm_num
    simp only [selectLane, Arr3.get?, h1, h2, h60, h30, h120, if_true, if_false,
      false_and]
    simp [h60, h30]
  have hv : validLane (if st.min_dist_front.a0 > 180 then 0 else 2) := by
    split
    · exact Or.inl rfl
    · exact Or.inr (Or.inr rfl)
  obtain ⟨fs, hfs⟩ := arr3_get_of_validLane st.front_speed _ hv
  refine ⟨⟨if st.min_dist_front.a0 > 180 then 0 else 2,
    speedControl (decide ((20 : K) < 30)) fs ref_vel⟩, ?_, rfl⟩
  simp only [behavior, hsel, hfs]
  simp [Arr3.get?, h1]

theorem C5_open_lane_witness :
    rightOpen.min_dist_front.a1 = 20 ∧ rightOpen.min_dist_front.a2 > 180 ∧
    ∃ ps, behavior rightOpen 40 (⟨1, 40⟩ : PlannerState ℚ) = some ps ∧
      ps.lane = if rightOpen.min_dist_front.a0 > 180 then 0 else 2 :=
  ⟨rfl, by norm_num [rightOpen],
    C5_open_lane rightOpen 40 40 rfl (by norm_num [rightOpen])⟩

end OpenLane

section OccupancyLemmas

variable {K : Type} [LinearOrderedField K] [FloorRing K]

/-- The loop body on an object behind the ego vehicle: only the rear arrays of the
object's lane can change, to the smaller distance and the speed that goes with it. -/
theorem occupancyStep_rear (E : MathEnv K) (prev_size : Nat) (car_s : K)
    (st : LaneStats K) (o : TrackedObject K) (i : Int)
    (hi : laneIndex o.d = some i) (hv : validLane i)
    (hr : checkS E prev_size o < car_s) :
    ∃ st1 cur old, st.min_dist_rear.get? i = some cur ∧ st.rear_speed.get? i = some old ∧
      occupancyStep E prev_size car_s st o = some st1 ∧
      st1.min_dist_front = st.min_dist_front ∧ st1.front_speed = st.front_speed ∧
      st1.min_dist_rear.get? i = some (min cur (car_s - checkS E prev_size o)) ∧
      st1.rear_speed.get? i
        = some (if car_s - checkS E prev_size o < cur then checkSpeed E o else old) ∧
      ∀ j, j ≠ i → st1.min_dist_rear.get? j = st.min_dist_rear.get? j ∧
        st1.rear_speed.get? j = st.rear_speed.get? j := by
  have hr1 : isRear car_s (checkS E prev_size o) = true := by simpa [isRear] using hr
  rcases hv with h | h | h <;> subst h <;>
    simp only [occupancyStep, hi, hr1, Arr3.get?, Arr3.set?, min_def] <;>
    norm_num <;>
    split_ifs <;>
    first
    | (exfalso; linarith)
    | (refine ⟨_, rfl, rfl, rfl, rfl, rfl, ?_⟩
       intro j hj
       simp [hj])

/-- The loop body on an object not behind the ego vehicle: only the front arrays of
the object's lane can change, to the smaller distance and the speed that goes with
it. -/
theorem occupancyStep_front (E : MathEnv K) (prev_size : Nat) (car_s : K)
    (st : LaneStats K) (o : TrackedObject K) (i : Int)
    (hi : laneIndex o.d = some i) (hv : validLane i)
    (hr : car_s ≤ checkS E prev_size o) :
    ∃ st1 cur old, st.min_dist_front.get? i = some cur ∧ st.front_speed.get? i = some old ∧
      occupancyStep E prev_size car_s st o = some st1 ∧
      st1.min_dist_rear = st.min_dist_rear ∧ st1.rear_speed = st.rear_speed ∧
      st1.min_dist_front.get? i = some (min cur (checkS E prev_size o - car_s)) ∧
      st1.front_speed.get? i
        = some (if checkS E prev_size o - car_s < cur then checkSpeed E o else old) ∧
      ∀ j, j ≠ i → st1.min_dist_front.get? j = st.min_dist_front.get? j ∧
        st1.front_speed.get? j = st.front_speed.get? j := by
  have hr1 : isRear car_s (checkS E prev_size o) = false := by simpa [isRear] using hr
  rcases hv with h | h | h <;> subst h <;>
    simp only [occupancyStep, hi, hr1, Arr3.get?, Arr3.set?, min_def] <;>
    norm_num <;>
    split_ifs <;>
    first
    | (exfalso; linarith)
    | (refine ⟨_, rfl, rfl, rfl, rfl, rfl, ?_⟩
       intro j hj
       simp [hj])

/-- An object whose lane index is not 0, 1 or 2 makes the loop body read outside the
arrays. -/
theorem occupancyStep_out_of_range (E : MathEnv K) (prev_size : Nat) (car_s : K)
    (st : LaneStats K) (o : TrackedObject K) (i : Int)
    (hi : laneIndex o.d = some i) (hv : ¬ validLane i) :
    occupancyStep E prev_size car_s st o = none := by
  have h0 : i ≠ 0 := fun h => hv (Or.inl h)
  have h1 : i ≠ 1 := fun h => hv (Or.inr (Or.inl h))
  have h2 : i ≠ 2 := fun h => hv (Or.inr (Or.inr h))
  simp only [occupancyStep, hi, Arr3.get?, h0, h1, h2, if_false]
  split <;> rfl

/-- The loop completes when every object has a lane index in 0..2. -/
theorem occupancyLoop_total (E : MathEnv K) (prev_size : Nat) (car_s : K)
    (objs : List (TrackedObject K)) :
    ∀ st : LaneStats K, (∀ o ∈ objs, ∃ i, laneIndex o.d = some i ∧ validLane i) →
      ∃ st1, occupancyLoop E prev_size car_s st objs = some st1 := by
  induction objs with
  | nil => intro st _; exact ⟨st, rfl⟩
  | cons o rest ih =>
    intro st h
    obtain ⟨i, hi, hv⟩ := h o (List.mem_cons_self _ _)
    have hstep : ∃ st1, occupancyStep E prev_size car_s st o = some st1 := by
      rcases lt_or_le (checkS E prev_size o) car_s with hr | hr
      · obtain ⟨st1, _, _, _, _, h1, _⟩ :=
          occupancyStep_rear E prev_size car_s st o i hi hv hr
        exact ⟨st1, h1⟩
      · obtain ⟨st1, _, _, _, _, h1, _⟩ :=
          occupancyStep_front E prev_size car_s st o i hi hv hr
        exact ⟨st1, h1⟩
    obtain ⟨st1, h1⟩ := hstep
    obtain ⟨st2, h2⟩ := ih st1 (fun o1 ho1 => h o1 (List.mem_cons_of_mem _ ho1))
    exact ⟨st2, by simp [occupancyLoop, h1, h2]⟩

/-- The front entries of lane `L` survive a loop none of whose objects is a front
object of lane `L`. -/
theorem occupancyLoop_front_kept (E : MathEnv K) (prev_size : Nat) (car_s : K) (L : Int)
    (objs : List (TrackedObject K)) :
    ∀ st st1 : LaneStats K, occupancyLoop E prev_size car_s st objs = some st1 →
      (∀ o ∈ objs, laneIndex o.d = some L → isRear car_s (checkS E prev_size o) = true) →
      st1.min_dist_front.get? L = st.min_dist_front.get? L ∧
        st1.front_speed.get? L = st.front_speed.get? L := by
  induction objs with
  | nil =>
    intro st st1 h _
    simp only [occupancyLoop, Option.some.injEq] at h
    subst h
    exact ⟨rfl, rfl⟩
  | cons o rest ih =>
    intro st st1 h hno
    simp only [occupancyLoop] at h
    cases hstep : occupancyStep E prev_size car_s st o with
    | none => simp [hstep] at h
    | some st2 =>
      simp only [hstep] at h
      obtain ⟨ih1, ih2⟩ := ih st2 st1 h (fun o1 ho1 => hno o1 (List.mem_cons_of_mem _ ho1))
      rw [ih1, ih2]
      cases hi : laneIndex o.d with
      | none => simp [occupancyStep, hi] at hstep
      | some i =>
        by_cases hv : validLane i
        · rcases lt_or_le (checkS E prev_size o) car_s with hr | hr
          · obtain ⟨st3, _, _, _, _, h3, hf, hs, _⟩ :=
              occupancyStep_rear E prev_size car_s st o i hi hv hr
            rw [hstep, Option.some.injEq] at h3
            subst h3
            rw [hf, hs]
            exact ⟨rfl, rfl⟩
          · obtain ⟨st3, _, _, _, _, h3, _, _, _, _, hj⟩ :=
              occupancyStep_front E prev_size car_s st o i hi hv hr
            rw [hstep, Option.some.injEq] at h3
            subst h3
            have hne : L ≠ i := by
              intro hLi
              subst hLi
              have := hno o (List.mem_cons_self _ _) hi
              simp only [isRear, decide_eq_true_eq] at this
              exact absurd (lt_of_lt_of_le this hr) (lt_irrefl _)
            exact hj L hne
        · rw [occupancyStep_out_of_range E prev_size car_s st o i hi hv] at hstep
          simp at hstep

/-- The rear entries of lane `L` survive a loop none of whose objects is a rear object
of lane `L`. -/
theorem occupancyLoop_rear_kept (E : MathEnv K) (prev_size : Nat) (car_s : K) (L : Int)
    (objs : List (TrackedObject K)) :
    ∀ st st1 : LaneStats K, occupancyLoop E prev_size car_s st objs = some st1 →
      (∀ o ∈ objs, laneIndex o.d = some L → isRear car_s (checkS E prev_size o) = false) →
      st1.min_dist_rear.get? L = st.min_dist_rear.get? L ∧
        st1.rear_speed.get? L = st.rear_speed.get? L := by
  induction objs with
  | nil =>
    intro st st1 h _
    simp only [occupancyLoop, Option.some.injEq] at h
    subst h
    exact ⟨rfl, rfl⟩
  | cons o rest ih =>
    intro st st1 h hno
    simp only [occupancyLoop] at h
    cases hstep : occupancyStep E prev_size car_s st o with
    | none => simp [hstep] at h
    | some st2 =>
      simp only [hstep] at h
      obtain ⟨ih1, ih2⟩ := ih st2 st1 h (fun o1 ho1 => hno o1 (List.mem_cons_of_mem _ ho1))
      rw [ih1, ih2]
      cases hi : laneIndex o.d with
      | none => simp [occupancyStep, hi] at hstep
      | some i =>
        by_cases hv : validLane i
        · rcases lt_or_le (checkS E prev_size o) car_s with hr | hr
          · obtain ⟨st3, _, _, _, _, h3, _, _, _, _, hj⟩ :=
              occupancyStep_rear E prev_size car_s st o i hi hv hr
            rw [hstep, Option.some.injEq] at h3
            subst h3
            have hne : L ≠ i := by
              intro hLi
              subst hLi
              have := hno o (List.mem_cons_self _ _) hi
              simp only [isRear, decide_eq_false_iff_not, not_lt] at this
              exact absurd (lt_of_lt_of_le hr this) (lt_irrefl _)
            exact hj L hne
          · obtain ⟨st3, _, _, _, _, h3, hf, hs, _⟩ :=
              occupancyStep_front E prev_size car_s st o i hi hv hr
            rw [hstep, Option.some.injEq] at h3
            subst h3
            rw [hf, hs]
            exact ⟨rfl, rfl⟩
        · rw [occupancyStep_out_of_range E prev_size car_s st o i hi hv] at hstep
          simp at hstep

/-- With a square root that is never negative, the reduction only produces front
speeds that are not negative. -/
theorem laneOccupancy_frontSpeedsNonneg (E : MathEnv K) (hE : ∀ v, 0 ≤ E.sqrt v)
    (prev_size : Nat) (car_s : K) (objs : List (TrackedObject K)) :
    ∀ st st1 : LaneStats K, frontSpeedsNonneg st →
      occupancyLoop E prev_size car_s st objs = some st1 → frontSpeedsNonneg st1 := by
  induction objs with
  | nil =>
    intro st st1 hst h
    simp only [occupancyLoop, Option.some.injEq] at h
    subst h
    exact hst
  | cons o rest ih =>
    intro st st1 hst h
    simp only [occupancyLoop] at h
    cases hstep : occupancyStep E prev_size car_s st o with
    | none => simp [hstep] at h
    | some st2 =>
      simp only [hstep] at h
      refine ih st2 st1 ?_ h
      cases hi : laneIndex o.d with
      | none => simp [occupancyStep, hi] at hstep
      | some i =>
        by_cases hv : validLane i
        · rcases lt_or_le (checkS E prev_size o) car_s with hr | hr
          · obtain ⟨st3, _, _, _, _, h3, _, hs, _⟩ :=
              occupancyStep_rear E prev_size car_s st o i hi hv hr
            rw [hstep, Option.some.injEq] at h3
            subst h3
            rw [frontSpeedsNonneg_iff, hs, ← frontSpeedsNonneg_iff]
            exact hst
          · obtain ⟨st3, _, old, _, hold, h3, _, _, _, hsp, hj⟩ :=
              occupancyStep_front E prev_size car_s st o i hi hv hr
            rw [hstep, Option.some.injEq] at h3
            subst h3
            rw [frontSpeedsNonneg_iff]
            intro j v hjv
            by_cases hji : j = i
            · subst hji
              rw [hsp, Option.some.injEq] at hjv
              subst hjv
              split
              · exact hE _
              · exact (frontSpeedsNonneg_iff st).mp hst j old hold
            · rw [(hj j hji).2] at hjv
              exact (frontSpeedsNonneg_iff st).mp hst j v hjv
        · rw [occupancyStep_out_of_range E prev_size car_s st o i hi hv] at hstep
          simp at hstep

end OccupancyLemmas

section LaneIndexLemmas

variable {K : Type} [LinearOrderedField K] [FloorRing K]

theorem floor_div_four (x : K) : ⌊x / 4⌋ = ⌊x⌋ / 4 := by
  rw [Int.floor_eq_iff]
  have h1 : (⌊x⌋ : K) ≤ x := Int.floor_le x
  have h2 : x < (⌊x⌋ : K) + 1 := Int.lt_floor_add_one x
  have h3 : (⌊x⌋ / 4) * 4 ≤ ⌊x⌋ := by omega
  have h4 : ⌊x⌋ + 1 ≤ (⌊x⌋ / 4 + 1) * 4 := by omega
  have h3K : (((⌊x⌋ / 4 : Int) : K)) * 4 ≤ (⌊x⌋ : K) := by exact_mod_cast h3
  have h4K : (⌊x⌋ : K) + 1 ≤ ((((⌊x⌋ / 4 : Int) : K)) + 1) * 4 := by exact_mod_cast h4
  constructor
  · rw [le_div_iff₀ (by norm_num)]
    linarith
  · rw [div_lt_iff₀ (by norm_num)]
    linarith

theorem laneIndex_of_nonneg (d : K) (h0 : 0 ≤ d) (h1 : d < 2147483648) :
    laneIndex d = some ⌊d / 4⌋ := by
  have hf0 : 0 ≤ ⌊d⌋ := Int.floor_nonneg.mpr h0
  have hf1 : ⌊d⌋ < 2147483648 := by
    rw [Int.floor_lt]
    exact_mod_cast h1
  have hr : -2147483648 ≤ ⌊d⌋ ∧ ⌊d⌋ ≤ 2147483647 := by omega
  simp only [laneIndex, castInt, h0, if_true]
  rw [if_pos hr, Option.map_some']
  rw [floor_div_four, Int.tdiv_eq_ediv hf0 (by norm_num)]

theorem laneIndex_of_neg (d : K) (h0 : d < 0) (h1 : -2147483649 < d) :
    laneIndex d = some ⌈d / 4⌉ := by
  have hc0 : ⌈d⌉ ≤ 0 := by
    rw [Int.ceil_le]
    exact_mod_cast le_of_lt h0
  have hc1 : -2147483649 < ⌈d⌉ := by
    rw [Int.lt_ceil]
    exact_mod_cast h1
  have hr : -2147483648 ≤ ⌈d⌉ ∧ ⌈d⌉ ≤ 2147483647 := by omega
  have hn : ¬ (0 ≤ d) := not_le.mpr h0
  simp only [laneIndex, castInt, hn, if_false]
  rw [if_pos hr, Option.map_some']
  have e1 : ⌈d / 4⌉ = -(⌊-d⌋ / 4) := by
    rw [← floor_div_four, Int.ceil_eq_iff, Int.cast_neg, neg_div]
    have := Int.floor_eq_iff.mp (rfl : ⌊-(d / 4)⌋ = ⌊-(d / 4)⌋)
    constructor <;> linarith [this.1, this.2]
  have e2 : ⌈d⌉ = -⌊-d⌋ := by
    rw [Int.floor_neg, neg_neg]
  rw [e1, e2, Int.neg_tdiv, Int.tdiv_eq_ediv (by rw [e2] at hc0; omega) (by norm_num)]

end LaneIndexLemmas

section LaneIndexClaims

/-- C7: an object with `d = -0.1` gets lane index 0, but an object with `d = 12.1` gets
lane index 3, which is outside the four arrays of three entries: the loop body then
reads `min_dist_rear[3]` or `min_dist_front[3]`, whatever the other fields and the
state of the arrays are. -/
theorem C7_index_three_for_d_12_1 :
    laneIndex (-0.1 : ℚ) = some 0 ∧ laneIndex (12.1 : ℚ) = some 3 ∧
    ¬ validLane 3 ∧
    ∀ (E : MathEnv ℚ) (prev_size : Nat) (car_s : ℚ) (st : LaneStats ℚ)
      (o : TrackedObject ℚ),
      occupancyStep E prev_size car_s st { o with d := 12.1 } = none := by
  have h3 : laneIndex (12.1 : ℚ) = some 3 := by
    rw [laneIndex_of_nonneg _ (by norm_num) (by norm_num)]
    congr 1
    rw [Int.floor_eq_iff]
    norm_num
  have hm : laneIndex (-0.1 : ℚ) = some 0 := by
    rw [laneIndex_of_neg _ (by norm_num) (by norm_num)]
    congr 1
    rw [Int.ceil_eq_iff]
    norm_num
  refine ⟨hm, h3, by decide, ?_⟩
  intro E prev_size car_s st o
  exact occupancyStep_out_of_range E prev_size car_s st _ 3 h3 (by decide)

/-- C8 (as stated, refuted): for `d = -0.1` the lane index is 0 while
`floor(d / 4)` is -1. -/
theorem C8_not_floor_below_zero :
    laneIndex (-0.1 : ℚ) = some 0 ∧ ⌊(-0.1 : ℚ) / 4⌋ = -1 := by
  constructor
  · rw [laneIndex_of_neg _ (by norm_num) (by norm_num)]
    congr 1
    rw [Int.ceil_eq_iff]
    norm_num
  · rw [Int.floor_eq_iff]
    norm_num

/-- C8 (amended): for a lateral offset `d` with `0 ≤ d < 2^31` the lane index is
`floor(d / 4)`, and `d = 0, 4, 8` give lanes 0, 1, 2; for `-2^31 - 1 < d < 0` the
cast truncates toward zero and the index is `ceil(d / 4)`. -/
theorem C8_lane_index {K : Type} [LinearOrderedField K] [FloorRing K] (d : K) :
    (0 ≤ d → d < 2147483648 → laneIndex d = some ⌊d / 4⌋) ∧
    (d < 0 → -2147483649 < d → laneIndex d = some ⌈d / 4⌉) ∧
    laneIndex (0 : K) = some 0 ∧ laneIndex (4 : K) = some 1 ∧ laneIndex (8 : K) = some 2 := by
  refine ⟨laneIndex_of_nonneg d, laneIndex_of_neg d, ?_, ?_, ?_⟩
  · rw [laneIndex_of_nonneg _ (by norm_num) (by norm_num)]
    simp
  · rw [laneIndex_of_nonneg _ (by norm_num) (by norm_num)]
    simp
  · rw [laneIndex_of_nonneg _ (by norm_num) (by norm_num)]
    congr 1
    rw [Int.floor_eq_iff]
    norm_num

theorem C8_lane_index_witness :
    (0 : ℚ) ≤ 6 ∧ (6 : ℚ) < 2147483648 ∧ laneIndex (6 : ℚ) = some ⌊(6 : ℚ) / 4⌋ ∧
    (-6 : ℚ) < 0 ∧ -2147483649 < (-6 : ℚ) ∧ laneIndex (-6 : ℚ) = some ⌈(-6 : ℚ) / 4⌉ :=
  ⟨by norm_num, by norm_num, (C8_lane_index (6 : ℚ)).1 (by norm_num) (by norm_num),
    by norm_num, by norm_num, (C8_lane_index (-6 : ℚ)).2.1 (by norm_num) (by norm_num)⟩

end LaneIndexClaims

section OccupancyClaims

theorem checkS_stoppedObject (prev_size : Nat) (s d : ℝ) :
    checkS realMath prev_size (stoppedObject s d) = s := by
  simp [checkS, checkSpeed, stoppedObject, realMath]

theorem laneIndex_six : laneIndex (6 : ℝ) = some 1 := by
  rw [laneIndex_of_nonneg _ (by norm_num) (by norm_num)]
  congr 1
  rw [Int.floor_eq_iff]
  norm_num

/-- C9 (amended): with an empty object list the reduction completes with front distance 200,
front speed 50, rear distance 200 and rear speed 0 in all three lanes; and for every
object list whose lane indices are in 0..2 the reduction completes, a lane `L` that
gets no front object keeps front `(200, 50)`, and a lane that gets no rear object
keeps rear `(200, 0)`. -/
theorem C9_defaults {K : Type} [LinearOrderedField K] [FloorRing K]
    (E : MathEnv K) (prev_size : Nat) (car_s : K)
    (objs : List (TrackedObject K)) (L : Int) (hL : validLane L)
    (hobjs : ∀ o ∈ objs, ∃ i, laneIndex o.d = some i ∧ validLane i) :
    (∃ st, laneOccupancy E prev_size car_s [] = some st ∧
      st.min_dist_front = ⟨200, 200, 200⟩ ∧ st.front_speed = ⟨50, 50, 50⟩ ∧
      st.min_dist_rear = ⟨200, 200, 200⟩ ∧ st.rear_speed = ⟨0, 0, 0⟩) ∧
    ∃ st, laneOccupancy E prev_size car_s objs = some st ∧
      ((∀ o ∈ objs, laneIndex o.d = some L → isRear car_s (checkS E prev_size o) = true) →
        st.min_dist_front.get? L = some 200 ∧ st.front_speed.get? L = some 50) ∧
      ((∀ o ∈ objs, laneIndex o.d = some L → isRear car_s (checkS E prev_size o) = false) →
        st.min_dist_rear.get? L = some 200 ∧ st.rear_speed.get? L = some 0) := by
  refine ⟨⟨LaneStats.init, rfl, rfl, rfl, rfl, rfl⟩, ?_⟩
  obtain ⟨st, hst⟩ := occupancyLoop_total E prev_size car_s objs LaneStats.init hobjs
  refine ⟨st, hst, ?_, ?_⟩
  · intro hno
    obtain ⟨h1, h2⟩ := occupancyLoop_front_kept E prev_size car_s L objs _ st hst hno
    rw [h1, h2]
    rcases hL with h | h | h <;> subst h <;> simp [LaneStats.init, Arr3.get?]
  · intro hno
    obtain ⟨h1, h2⟩ := occupancyLoop_rear_kept E prev_size car_s L objs _ st hst hno
    rw [h1, h2]
    rcases hL with h | h | h <;> subst h <;> simp [LaneStats.init, Arr3.get?]

theorem C9_defaults_witness :
    (validLane 1 ∧ validLane 0) ∧
    (∀ o ∈ [stoppedObject (50 : ℝ) 6, stoppedObject 150 2],
      ∃ i, laneIndex o.d = some i ∧ validLane i) ∧
    (∀ o ∈ [stoppedObject (50 : ℝ) 6, stoppedObject 150 2],
      laneIndex o.d = some 1 → isRear (100 : ℝ) (checkS realMath 0 o) = true) ∧
    (∀ o ∈ [stoppedObject (50 : ℝ) 6, stoppedObject 150 2],
      laneIndex o.d = some 0 → isRear (100 : ℝ) (checkS realMath 0 o) = false) ∧
    ∃ st, laneOccupancy realMath 0 (100 : ℝ) [stoppedObject 50 6, stoppedObject 150 2]
        = some st ∧
      (st.min_dist_front.get? 1 = some 200 ∧ st.front_speed.get? 1 = some 50) ∧
      (st.min_dist_rear.get? 0 = some 200 ∧ st.rear_speed.get? 0 = some 0) := by
  have h2 : laneIndex (2 : ℝ) = some 0 := by
    rw [laneIndex_of_nonneg _ (by norm_num) (by norm_num)]
    congr 1
    rw [Int.floor_eq_iff]
    norm_num
  have hobjs : ∀ o ∈ [stoppedObject (50 : ℝ) 6, stoppedObject 150 2],
      ∃ i, laneIndex o.d = some i ∧ validLane i := by
    intro o ho
    simp only [List.mem_cons, List.mem_singleton, List.not_mem_nil, or_false] at ho
    rcases ho with ho | ho
    · subst ho
      exact ⟨1, laneIndex_six, by decide⟩
    · subst ho
      exact ⟨0, h2, by decide⟩
  have hf : ∀ o ∈ [stoppedObject (50 : ℝ) 6, stoppedObject 150 2],
      laneIndex o.d = some 1 → isRear (100 : ℝ) (checkS realMath 0 o) = true := by
    intro o ho h1
    simp only [List.mem_cons, List.mem_singleton, List.not_mem_nil, or_false] at ho
    rcases ho with ho | ho
    · subst ho
      rw [checkS_stoppedObject]
      simp only [isRear, decide_eq_true_eq]
      norm_num
    · subst ho
      have e : laneIndex (stoppedObject (150 : ℝ) 2).d = some 0 := h2
      rw [e] at h1
      simp at h1
  have hr : ∀ o ∈ [stoppedObject (50 : ℝ) 6, stoppedObject 150 2],
      laneIndex o.d = some 0 → isRear (100 : ℝ) (checkS realMath 0 o) = false := by
    intro o ho h0
    simp only [List.mem_cons, List.mem_singleton, List.not_mem_nil, or_false] at ho
    rcases ho with ho | ho
    · subst ho
      have e : laneIndex (stoppedObject (50 : ℝ) 6).d = some 1 := laneIndex_six
      rw [e] at h0
      simp at h0
    · subst ho
      rw [checkS_stoppedObject]
      simp only [isRear, decide_eq_false_iff_not]
      norm_num
  obtain ⟨_, st, hst, h1, _⟩ :=
    C9_defaults realMath 0 (100 : ℝ) [stoppedObject 50 6, stoppedObject 150 2] 1
      (by decide) hobjs
  obtain ⟨_, st0, hst0, _, h4⟩ :=
    C9_defaults realMath 0 (100 : ℝ) [stoppedObject 50 6, stoppedObject 150 2] 0
      (by decide) hobjs
  have hs : st0 = st := Option.some.inj (hst0.symm.trans hst)
  subst hs
  exact ⟨⟨by decide, by decide⟩, hobjs, hf, hr, st0, hst0, h1 hf, h4 hr⟩

/-- C9 (as stated, refuted): with a single object at `d = 12.1`, 50 m ahead of the ego
vehicle, lane 0 receives no object at all, yet the reduction does not complete: there
is no result in which lane 0 has front distance 200 and front speed 50. -/
theorem C9_object_outside_lanes_no_defaults :
    (∀ o ∈ [stoppedObject (150 : ℝ) 12.1], laneIndex o.d ≠ some 0) ∧
    laneOccupancy realMath 0 (100 : ℝ) [stoppedObject 150 12.1] = none ∧
    ¬ ∃ st, laneOccupancy realMath 0 (100 : ℝ) [stoppedObject 150 12.1] = some st ∧
      st.min_dist_front.get? 0 = some 200 ∧ st.front_speed.get? 0 = some 50 := by
  have h3 : laneIndex (12.1 : ℝ) = some 3 := by
    rw [laneIndex_of_nonneg _ (by norm_num) (by norm_num)]
    congr 1
    rw [Int.floor_eq_iff]
    norm_num
  have hd : laneIndex (stoppedObject (150 : ℝ) 12.1).d = some 3 := h3
  have hnone : laneOccupancy realMath 0 (100 : ℝ) [stoppedObject 150 12.1] = none := by
    simp only [laneOccupancy, occupancyLoop]
    rw [occupancyStep_out_of_range realMath 0 100 LaneStats.init _ 3 hd (by decide)]
  refine ⟨?_, hnone, ?_⟩
  · intro o ho
    simp only [List.mem_singleton] at ho
    subst ho
    rw [hd]
    simp
  · rintro ⟨st, hst, _⟩
    rw [hnone] at hst
    cases hst

/-- C10 (as stated, refuted): an object whose projected `s` equals the ego `s` does
not strictly exceed it, yet it is handled as a front vehicle: it becomes the front
vehicle of its lane at distance 0. -/
theorem C10_equal_s_is_front :
    ¬ (checkS realMath 0 (stoppedObject (100 : ℝ) 6) > 100) ∧
    isRear (100 : ℝ) (checkS realMath 0 (stoppedObject (100 : ℝ) 6)) = false ∧
    ∃ st, occupancyStep realMath 0 (100 : ℝ) LaneStats.init (stoppedObject 100 6) = some st ∧
      st.min_dist_front.get? 1 = some 0 ∧ st.min_dist_rear.get? 1 = some 200 := by
  have hs := checkS_stoppedObject 0 100 6
  have hi : laneIndex (stoppedObject (100 : ℝ) 6).d = some 1 := laneIndex_six
  refine ⟨by rw [hs]; norm_num, by rw [hs]; simp [isRear], ?_⟩
  obtain ⟨st, cur, old, hcur, _, hst, hrear, _, hmin, _⟩ :=
    occupancyStep_front realMath 0 (100 : ℝ) LaneStats.init (stoppedObject 100 6) 1 hi
      (by decide) (by rw [hs])
  refine ⟨st, hst, ?_, ?_⟩
  · rw [hmin, hs]
    simp only [LaneStats.init, Arr3.get?] at hcur
    norm_num at hcur
    subst hcur
    norm_num
  · rw [hrear]
    simp [LaneStats.init, Arr3.get?]

/-- C10 (amended): with `s_future = s + prev_size * 0.02 * speed`, an object with a
lane index in 0..2 is handled as a front vehicle if and only if `s_future` is at
least the ego `s` (equality included), and as a rear vehicle if and only if the ego
`s` strictly exceeds `s_future`: in the first case only the front distance of its lane
is lowered to `min(old, s_future - ego_s)` and the rear arrays are untouched, in the
second only the rear distance is lowered to `min(old, ego_s - s_future)`. -/
theorem C10_front_iff_not_behind {K : Type} [LinearOrderedField K] [FloorRing K]
    (E : MathEnv K) (prev_size : Nat) (car_s : K) (st : LaneStats K)
    (o : TrackedObject K) (i : Int)
    (hi : laneIndex o.d = some i) (hv : validLane i) :
    checkS E prev_size o = o.s + (prev_size : K) * 0.02 * checkSpeed E o ∧
    (isRear car_s (checkS E prev_size o) = false ↔ car_s ≤ checkS E prev_size o) ∧
    ∃ st1, occupancyStep E prev_size car_s st o = some st1 ∧
      (car_s ≤ checkS E prev_size o →
        st1.min_dist_rear = st.min_dist_rear ∧ st1.rear_speed = st.rear_speed ∧
        ∃ cur, st.min_dist_front.get? i = some cur ∧
          st1.min_dist_front.get? i = some (min cur (checkS E prev_size o - car_s))) ∧
      (checkS E prev_size o < car_s →
        st1.min_dist_front = st.min_dist_front ∧ st1.front_speed = st.front_speed ∧
        ∃ cur, st.min_dist_rear.get? i = some cur ∧
          st1.min_dist_rear.get? i = some (min cur (car_s - checkS E prev_size o))) := by
  refine ⟨rfl, by simp [isRear], ?_⟩
  rcases lt_or_le (checkS E prev_size o) car_s with hr | hr
  · obtain ⟨st1, cur, _, hcur, _, hst, hf, hs, hmin, _⟩ :=
      occupancyStep_rear E prev_size car_s st o i hi hv hr
    exact ⟨st1, hst, fun h => absurd (lt_of_lt_of_le hr h) (lt_irrefl _),
      fun _ => ⟨hf, hs, cur, hcur, hmin⟩⟩
  · obtain ⟨st1, cur, _, hcur, _, hst, hf, hs, hmin, _⟩ :=
      occupancyStep_front E prev_size car_s st o i hi hv hr
    exact ⟨st1, hst, fun _ => ⟨hf, hs, cur, hcur, hmin⟩,
      fun h => absurd (lt_of_lt_of_le h hr) (lt_irrefl _)⟩

theorem C10_front_iff_not_behind_witness :
    laneIndex (stoppedObject (130 : ℝ) 6).d = some 1 ∧ validLane 1 ∧
    (100 : ℝ) ≤ checkS realMath 0 (stoppedObject (130 : ℝ) 6) ∧
    ∃ st1, occupancyStep realMath 0 (100 : ℝ) LaneStats.init (stoppedObject 130 6)
        = some st1 ∧
      st1.min_dist_rear = (LaneStats.init : LaneStats ℝ).min_dist_rear ∧
      st1.rear_speed = (LaneStats.init : LaneStats ℝ).rear_speed ∧
      ∃ cur, (LaneStats.init : LaneStats ℝ).min_dist_front.get? 1 = some cur ∧
        st1.min_dist_front.get? 1
          = some (min cur (checkS realMath 0 (stoppedObject (130 : ℝ) 6) - 100)) := by
  have hs := checkS_stoppedObject 0 130 6
  have hle : (100 : ℝ) ≤ checkS realMath 0 (stoppedObject (130 : ℝ) 6) := by
    rw [hs]; norm_num
  obtain ⟨_, _, st1, hst, hfront, _⟩ :=
    C10_front_iff_not_behind realMath 0 (100 : ℝ) LaneStats.init (stoppedObject 130 6) 1
      laneIndex_six (by decide)
  exact ⟨laneIndex_six, by decide, hle, st1, hst, hfront hle⟩

end OccupancyClaims

section RoundTripEvaluation

theorem closest_folded :
    ClosestWaypoint realMath (5 : ℝ) 0 foldedX foldedY = some 3 := by
  have h25 : Real.sqrt 25 = 5 := by
    rw [show (25 : ℝ) = 5 * 5 by norm_num]; exact Real.sqrt_mul_self (by norm_num)
  have h26 : (5 : ℝ) ≤ Real.sqrt 26 := by
    rw [← h25]; exact Real.sqrt_le_sqrt (by norm_num)
  have h1 : Real.sqrt 1 = 1 := Real.sqrt_one
  have t1 : Int.toNat 1 = 1 := rfl
  have t2 : Int.toNat 2 = 2 := rfl
  have t3 : Int.toNat 3 = 3 := rfl
  have t4 : Int.toNat 4 = 4 := rfl
  simp only [ClosestWaypoint, closestLoop, vecGet?, distance, realMath, foldedX, foldedY,
    List.length_cons, List.length_nil]
  norm_num [h25, t1, t2, t3, t4, not_lt.mpr h26]

theorem atan2_up : Complex.arg (Complex.mk 0 1) = Real.pi / 2 := Complex.arg_I

theorem atan2_left (a : ℝ) (h : a < 0) : Complex.arg (Complex.mk a 0) = Real.pi :=
  Complex.arg_ofReal_of_neg h

theorem next_folded :
    NextWaypoint realMath (5 : ℝ) 0 0 foldedX foldedY = some 4 := by
  have t3 : Int.toNat 3 = 3 := rfl
  have hpi := Real.pi_pos
  simp only [NextWaypoint, closest_folded]
  simp only [vecGet?, foldedX, foldedY, realMath]
  norm_num [t3, atan2_up]
  rw [abs_of_pos (by linarith : 0 < Real.pi / 2)]
  constructor <;> linarith

theorem frenet_folded :
    getFrenet realMath (5 : ℝ) 0 0 0 0 foldedX foldedY = some (16, 1) := by
  have t1 : Int.toNat 1 = 1 := rfl
  have t2 : Int.toNat 2 = 2 := rfl
  have t3 : Int.toNat 3 = 3 := rfl
  have t4 : Int.toNat 4 = 4 := rfl
  have h25 : Real.sqrt 25 = 5 := by
    rw [show (25 : ℝ) = 5 * 5 by norm_num]; exact Real.sqrt_mul_self (by norm_num)
  have h100 : Real.sqrt 100 = 10 := by
    rw [show (100 : ℝ) = 10 * 10 by norm_num]; exact Real.sqrt_mul_self (by norm_num)
  simp only [getFrenet, next_folded]
  simp only [vecGet?, foldedX, foldedY, realMath, segmentSum, distance]
  norm_num [t1, t2, t3, t4, h25, h100]

theorem xy_folded :
    getXY realMath (16 : ℝ) 1 foldedS foldedX foldedY = some (5, 2) := by
  have t1 : Int.toNat 1 = 1 := rfl
  have t2 : Int.toNat 2 = 2 := rfl
  have t3 : Int.toNat 3 = 3 := rfl
  have hscan : scanLoop (16 : ℝ) foldedS ((foldedS : List ℝ).length + 1) (-1) = some 2 := by
    simp only [scanLoop, vecGet?, foldedS, List.length_cons, List.length_nil]
    norm_num [t1, t2, t3]
  simp only [getXY, hscan]
  simp only [vecGet?, foldedS, foldedX, foldedY, realMath, List.length_cons, List.length_nil]
  norm_num [t2, t3, atan2_left]

end RoundTripEvaluation

section WaypointLemmas

variable {K : Type} [LinearOrderedField K]

theorem vecGet_natCast (v : List K) (k : Nat) (h : k < v.length) :
    vecGet? v (k : Int) = some (v.getD k 0) := by
  have h0 : (0 : Int) ≤ (k : Int) := Int.natCast_nonneg k
  rw [vecGet?, if_pos h0, Int.toNat_natCast, List.getD_eq_getElem?_getD, List.get?_eq_getElem?,
    List.getElem?_eq_getElem h]
  rfl

theorem vecGet_natCast_succ (v : List K) (k : Nat) (h : k + 1 < v.length) :
    vecGet? v ((k : Int) + 1) = some (v.getD (k + 1) 0) := by
  have := vecGet_natCast v (k + 1) h
  rwa [Nat.cast_add, Nat.cast_one] at this

/-- Under `arcLengthMap` the loop of lines 127-130 returns the map's own `s`. -/
theorem segmentSum_eq (E : MathEnv K) (maps_s maps_x maps_y : List K)
    (hmap : arcLengthMap E maps_s maps_x maps_y) (k : Nat) (hk : k < maps_x.length) :
    segmentSum E maps_x maps_y k = some (maps_s.getD k 0) := by
  obtain ⟨_, hy, h0, hstep⟩ := hmap
  induction k with
  | zero => rw [segmentSum, h0]
  | succ k ih =>
    have hk1 : k < maps_x.length := by omega
    have hx0 := vecGet_natCast maps_x k hk1
    have hy0 := vecGet_natCast maps_y k (by omega)
    have hx1 := vecGet_natCast_succ maps_x k hk
    have hy1 := vecGet_natCast_succ maps_y k (by omega)
    simp only [segmentSum, ih hk1, hx0, hy0, hx1, hy1, (hstep k hk).2]

/-- The `s` values of an `arcLengthMap` are ordered. -/
theorem maps_s_mono (E : MathEnv K) (maps_s maps_x maps_y : List K)
    (hmap : arcLengthMap E maps_s maps_x maps_y) (j : Nat) (hj : j < maps_x.length)
    (k : Nat) (hk : k ≤ j) : maps_s.getD k 0 ≤ maps_s.getD j 0 := by
  induction j with
  | zero =>
    have : k = 0 := by omega
    subst this
    exact le_refl _
  | succ j ih =>
    rcases Nat.lt_or_ge k (j + 1) with h | h
    · exact le_trans (ih (by omega) (by omega)) (le_of_lt (hmap.2.2.2 j hj).1)
    · have : k = j + 1 := by omega
      subst this
      exact le_refl _

/-- The scan of `getXY` stops at the segment whose `s` bracket contains `s`. -/
theorem scanLoop_eq (E : MathEnv K) (maps_s maps_x maps_y : List K)
    (hmap : arcLengthMap E maps_s maps_x maps_y) (j : Nat) (hj : j + 1 < maps_x.length)
    (s : K) (hlo : maps_s.getD j 0 < s) (hhi : s ≤ maps_s.getD (j + 1) 0) :
    ∀ (n p m : Nat), p + n = j + 1 → n + 1 ≤ m →
      scanLoop s maps_s m ((p : Int) - 1) = some j := by
  have hlen : maps_s.length = maps_x.length := hmap.1
  intro n
  induction n with
  | zero =>
    intro p m hp hm
    obtain ⟨m, rfl⟩ : ∃ m1, m = m1 + 1 := ⟨m - 1, by omega⟩
    have hpj : p = j + 1 := by omega
    subst hpj
    have hread := vecGet_natCast maps_s (j + 1) (by omega)
    have hcond : ¬ (s > maps_s.getD (j + 1) 0 ∧
        (((j + 1 : Nat) : Int) - 1) < (maps_s.length : Int) - 1) :=
      fun h => absurd (lt_of_lt_of_le h.1 hhi) (lt_irrefl _)
    simp only [scanLoop, sub_add_cancel, hread, hcond, if_false]
    congr 1
    push_cast
    ring
  | succ n ih =>
    intro p m hp hm
    obtain ⟨m, rfl⟩ : ∃ m1, m = m1 + 1 := ⟨m - 1, by omega⟩
    have hpj : p ≤ j := by omega
    have hread := vecGet_natCast maps_s p (by omega)
    have hs : maps_s.getD p 0 < s :=
      lt_of_le_of_lt (maps_s_mono E maps_s maps_x maps_y hmap j (by omega) p hpj) hlo
    have hcond : s > maps_s.getD p 0 ∧ ((p : Int) - 1) < (maps_s.length : Int) - 1 :=
      ⟨hs, by omega⟩
    simp only [scanLoop, sub_add_cancel, hread, hcond, if_true, and_self]
    have := ih (p + 1) m (by omega) (by omega)
    simpa using this

end WaypointLemmas

section RealGeometry

theorem abs_arg_sub_arg_neg (z : ℂ) (hz : z ≠ 0) :
    |Complex.arg z - Complex.arg (-z)| = Real.pi := by
  have hpi := Real.pi_pos
  rcases lt_trichotomy z.im 0 with him | him | him
  · rw [Complex.arg_neg_eq_arg_add_pi_of_im_neg him]
    rw [show Complex.arg z - (Complex.arg z + Real.pi) = -Real.pi by ring, abs_neg,
      abs_of_pos hpi]
  · have hre : z.re ≠ 0 := by
      intro hre
      exact hz (Complex.ext hre him)
    rcases lt_or_gt_of_ne hre with h | h
    · have h1 : Complex.arg z = Real.pi := Complex.arg_eq_pi_iff.mpr ⟨h, him⟩
      have h2 : Complex.arg (-z) = 0 :=
        Complex.arg_eq_zero_iff.mpr ⟨by simp; linarith, by simp [him]⟩
      rw [h1, h2, sub_zero, abs_of_pos hpi]
    · have h1 : Complex.arg z = 0 := Complex.arg_eq_zero_iff.mpr ⟨le_of_lt h, him⟩
      have h2 : Complex.arg (-z) = Real.pi :=
        Complex.arg_eq_pi_iff.mpr ⟨by simp; linarith, by simp [him]⟩
      rw [h1, h2, zero_sub, abs_neg, abs_of_pos hpi]
  · rw [Complex.arg_neg_eq_arg_sub_pi_of_im_pos him]
    rw [show Complex.arg z - (Complex.arg z - Real.pi) = Real.pi by ring, abs_of_pos hpi]

theorem arg_mk_pos_mul (r a b : ℝ) (hr : 0 < r) :
    Complex.arg (Complex.mk (r * a) (r * b)) = Complex.arg (Complex.mk a b) := by
  have e : Complex.mk (r * a) (r * b) = (r : ℂ) * Complex.mk a b := by
    apply Complex.ext <;> simp
  rw [e, Complex.arg_real_mul _ hr]

theorem arg_mk_neg_mul (r a b : ℝ) (hr : 0 < r) :
    Complex.arg (Complex.mk (-(r * a)) (-(r * b))) = Complex.arg (-(Complex.mk a b)) := by
  have e : Complex.mk (-(r * a)) (-(r * b)) = (r : ℂ) * (-(Complex.mk a b)) := by
    apply Complex.ext <;> simp
  rw [e, Complex.arg_real_mul _ hr]

theorem distance_real (x1 y1 x2 y2 : ℝ) :
    distance realMath x1 y1 x2 y2
      = Real.sqrt ((x2 - x1) * (x2 - x1) + (y2 - y1) * (y2 - y1)) := rfl

theorem distance_eq_abs (x1 y1 x2 y2 : ℝ) :
    distance realMath x1 y1 x2 y2 = Complex.abs (Complex.mk (x2 - x1) (y2 - y1)) := by
  rw [distance_real, Complex.abs_apply, Complex.normSq_mk]

theorem distance_scaled (t a b : ℝ) (ht : 0 ≤ t) :
    distance realMath 0 0 (t * a) (t * b) = t * distance realMath 0 0 a b := by
  rw [distance_real, distance_real]
  rw [show (t * a - 0) * (t * a - 0) + (t * b - 0) * (t * b - 0)
      = (t * t) * ((a - 0) * (a - 0) + (b - 0) * (b - 0)) by ring]
  rw [Real.sqrt_mul (mul_self_nonneg t), Real.sqrt_mul_self ht]

theorem distance_self (a b : ℝ) : distance realMath a b a b = 0 := by
  simp [distance_real]

end RealGeometry

section RoundTripLemmas

/-- Past the start of a segment whose start is the closest waypoint, and heading along
the segment, `NextWaypoint` returns the end of the segment. -/
theorem nextWaypoint_from_behind (maps_x maps_y : List ℝ) (i : Nat)
    (hi : i + 1 < maps_x.length) (hlen : maps_y.length = maps_x.length)
    (t x y : ℝ) (ht0 : 0 < t)
    (hx : x = maps_x.getD i 0 + t * (maps_x.getD (i + 1) 0 - maps_x.getD i 0))
    (hy : y = maps_y.getD i 0 + t * (maps_y.getD (i + 1) 0 - maps_y.getD i 0))
    (hne : Complex.mk (maps_x.getD (i + 1) 0 - maps_x.getD i 0)
      (maps_y.getD (i + 1) 0 - maps_y.getD i 0) ≠ 0)
    (hc : ClosestWaypoint realMath x y maps_x maps_y = some (i : Int)) :
    NextWaypoint realMath x y
        (realMath.atan2 (maps_y.getD (i + 1) 0 - maps_y.getD i 0)
          (maps_x.getD (i + 1) 0 - maps_x.getD i 0)) maps_x maps_y
      = some ((i : Int) + 1) := by
  have hpi := Real.pi_pos
  have hx0 := vecGet_natCast maps_x i (by omega)
  have hy0 := vecGet_natCast maps_y i (by omega)
  generalize maps_x.getD i 0 = x0 at *
  generalize maps_y.getD i 0 = y0 at *
  generalize maps_x.getD (i + 1) 0 = x1 at *
  generalize maps_y.getD (i + 1) 0 = y1 at *
  have e1 : Complex.arg (Complex.mk (x0 - x) (y0 - y))
      = Complex.arg (-(Complex.mk (x1 - x0) (y1 - y0))) := by
    have e : Complex.mk (x0 - x) (y0 - y)
        = Complex.mk (-(t * (x1 - x0))) (-(t * (y1 - y0))) := by
      rw [hx, hy]
      congr 1 <;> ring
    rw [e, arg_mk_neg_mul t _ _ ht0]
  have hangle := abs_arg_sub_arg_neg _ hne
  have hmin : min (2 * Real.pi - Real.pi) Real.pi = Real.pi := min_eq_right (by linarith)
  have hgt : Real.pi > Real.pi / 4 := by linarith
  have hsz : ¬ ((i : Int) + 1 = (maps_x.length : Int)) := by omega
  simp only [NextWaypoint, hc, hx0, hy0]
  simp only [realMath, e1, hangle, hmin, hgt, if_true, hsz, if_false]

/-- Before the end of a segment whose end is the closest waypoint, and heading along
the segment, `NextWaypoint` returns that end. -/
theorem nextWaypoint_from_ahead (maps_x maps_y : List ℝ) (i : Nat)
    (hi : i + 1 < maps_x.length) (hlen : maps_y.length = maps_x.length)
    (t x y : ℝ) (ht1 : t < 1)
    (hx : x = maps_x.getD i 0 + t * (maps_x.getD (i + 1) 0 - maps_x.getD i 0))
    (hy : y = maps_y.getD i 0 + t * (maps_y.getD (i + 1) 0 - maps_y.getD i 0))
    (hc : ClosestWaypoint realMath x y maps_x maps_y = some ((i : Int) + 1)) :
    NextWaypoint realMath x y
        (realMath.atan2 (maps_y.getD (i + 1) 0 - maps_y.getD i 0)
          (maps_x.getD (i + 1) 0 - maps_x.getD i 0)) maps_x maps_y
      = some ((i : Int) + 1) := by
  have hpi := Real.pi_pos
  have hx1 := vecGet_natCast_succ maps_x i hi
  have hy1 := vecGet_natCast_succ maps_y i (by omega)
  generalize maps_x.getD i 0 = x0 at *
  generalize maps_y.getD i 0 = y0 at *
  generalize maps_x.getD (i + 1) 0 = x1 at *
  generalize maps_y.getD (i + 1) 0 = y1 at *
  have e1 : Complex.arg (Complex.mk (x1 - x) (y1 - y))
      = Complex.arg (Complex.mk (x1 - x0) (y1 - y0)) := by
    have e : Complex.mk (x1 - x) (y1 - y)
        = Complex.mk ((1 - t) * (x1 - x0)) ((1 - t) * (y1 - y0)) := by
      rw [hx, hy]
      congr 1 <;> ring
    rw [e, arg_mk_pos_mul (1 - t) _ _ (by linarith)]
  have hmin : min (2 * Real.pi - 0) 0 = (0 : ℝ) := min_eq_right (by linarith)
  have hgt : ¬ ((0 : ℝ) > Real.pi / 4) := by
    rw [gt_iff_lt, not_lt]
    linarith
  simp only [NextWaypoint, hc, hx1, hy1]
  simp only [realMath, e1, sub_self, abs_zero, hmin, hgt, if_false]

/-- `NextWaypoint` returns the closest waypoint or the one after it, cyclically. -/
theorem nextWaypoint_cases {K : Type} [LinearOrderedField K] (E : MathEnv K)
    (x y theta : K) (maps_x maps_y : List K) (c : Nat)
    (hcN : c < maps_x.length) (hlen : maps_y.length = maps_x.length)
    (hc : ClosestWaypoint E x y maps_x maps_y = some (c : Int)) :
    NextWaypoint E x y theta maps_x maps_y = some (c : Int) ∨
    NextWaypoint E x y theta maps_x maps_y
      = some (if (c : Int) + 1 = (maps_x.length : Int) then 0 else (c : Int) + 1) := by
  have hx0 := vecGet_natCast maps_x c hcN
  have hy0 := vecGet_natCast maps_y c (by omega)
  simp only [NextWaypoint, hc, hx0, hy0]
  split_ifs <;> simp

/-- Once the smallest distance found is 0 the loop of `ClosestWaypoint` keeps its
waypoint. -/
theorem closestLoop_zero (x y : ℝ) (maps_x maps_y : List ℝ)
    (hlen : maps_y.length = maps_x.length) (cw : Int) :
    ∀ (n k : Nat), k + n ≤ maps_x.length →
      closestLoop realMath x y maps_x maps_y n (k : Int) 0 cw = some cw := by
  intro n
  induction n with
  | zero => intro k _; rfl
  | succ n ih =>
    intro k hk
    have hx0 := vecGet_natCast maps_x k (by omega)
    have hy0 := vecGet_natCast maps_y k (by omega)
    have hd : ¬ (distance realMath x y (maps_x.getD k 0) (maps_y.getD k 0) < 0) :=
      not_lt.mpr (Real.sqrt_nonneg _)
    simp only [closestLoop, hx0, hy0, hd, if_false]
    have := ih (k + 1) (by omega)
    simpa using this

/-- At the first waypoint of the map `ClosestWaypoint` returns 0. -/
theorem closestWaypoint_at_first (maps_x maps_y : List ℝ)
    (hlen : maps_y.length = maps_x.length) (hN : 0 < maps_x.length) :
    ClosestWaypoint realMath (maps_x.getD 0 0) (maps_y.getD 0 0) maps_x maps_y = some 0 := by
  obtain ⟨n, hn⟩ : ∃ n, maps_x.length = n + 1 := ⟨maps_x.length - 1, by omega⟩
  have hx0 := vecGet_natCast maps_x 0 hN
  have hy0 := vecGet_natCast maps_y 0 (by omega)
  have hd : distance realMath (maps_x.getD 0 0) (maps_y.getD 0 0) (maps_x.getD 0 0)
      (maps_y.getD 0 0) = 0 := distance_self _ _
  have hlt : (0 : ℝ) < 100000 := by norm_num
  have hz := closestLoop_zero (maps_x.getD 0 0) (maps_y.getD 0 0) maps_x maps_y hlen 0 n 1
    (by omega)
  simp only [Nat.cast_zero] at hx0 hy0
  simp only [Nat.cast_one] at hz
  simp only [ClosestWaypoint, hn, closestLoop, hx0, hy0, hd, hlt, if_true, zero_add]
  exact hz

/-- A segment of an `arcLengthMap` has positive length. -/
theorem segment_length_pos (maps_s maps_x maps_y : List ℝ)
    (hmap : arcLengthMap realMath maps_s maps_x maps_y) (i : Nat)
    (hi : i + 1 < maps_x.length) :
    0 < distance realMath (maps_x.getD i 0) (maps_y.getD i 0)
      (maps_x.getD (i + 1) 0) (maps_y.getD (i + 1) 0) := by
  have h := hmap.2.2.2 i hi
  linarith [h.1, h.2]

/-- On the segment from waypoint `pw` to the waypoint `nw` that `NextWaypoint` returns,
`getFrenet` gives the arc length up to the position and the lateral offset 0. -/
theorem getFrenet_between (maps_s maps_x maps_y : List ℝ)
    (hmap : arcLengthMap realMath maps_s maps_x maps_y) (pw nw : Nat)
    (hpw : pw < maps_x.length) (hnw : nw < maps_x.length)
    (hprev : (if (nw : Int) = 0 then (maps_x.length : Int) - 1 else (nw : Int) - 1)
      = (pw : Int))
    (hq : (maps_x.getD nw 0 - maps_x.getD pw 0) * (maps_x.getD nw 0 - maps_x.getD pw 0)
      + (maps_y.getD nw 0 - maps_y.getD pw 0) * (maps_y.getD nw 0 - maps_y.getD pw 0) ≠ 0)
    (t x y theta : ℝ) (ht0 : 0 ≤ t)
    (hx : x = maps_x.getD pw 0 + t * (maps_x.getD nw 0 - maps_x.getD pw 0))
    (hy : y = maps_y.getD pw 0 + t * (maps_y.getD nw 0 - maps_y.getD pw 0))
    (hnext : NextWaypoint realMath x y theta maps_x maps_y = some (nw : Int)) :
    getFrenet realMath x y theta 0 0 maps_x maps_y
      = some (maps_s.getD pw 0 + t * distance realMath (maps_x.getD pw 0) (maps_y.getD pw 0)
          (maps_x.getD nw 0) (maps_y.getD nw 0), 0) := by
  have hlen : maps_y.length = maps_x.length := hmap.2.1
  have hx0 := vecGet_natCast maps_x pw hpw
  have hy0 := vecGet_natCast maps_y pw (by omega)
  have hx1 := vecGet_natCast maps_x nw hnw
  have hy1 := vecGet_natCast maps_y nw (by omega)
  have hsum := segmentSum_eq realMath maps_s maps_x maps_y hmap pw hpw
  generalize maps_x.getD pw 0 = x0 at *
  generalize maps_y.getD pw 0 = y0 at *
  generalize maps_x.getD nw 0 = x1 at *
  generalize maps_y.getD nw 0 = y1 at *
  have hxx : x - x0 = t * (x1 - x0) := by rw [hx]; ring
  have hxy : y - y0 = t * (y1 - y0) := by rw [hy]; ring
  have hpn : (t * (x1 - x0) * (x1 - x0) + t * (y1 - y0) * (y1 - y0))
      / ((x1 - x0) * (x1 - x0) + (y1 - y0) * (y1 - y0)) = t := by
    field_simp
    ring
  have hd0 : distance realMath 0 0 (x1 - x0) (y1 - y0) = distance realMath x0 y0 x1 y1 := by
    simp [distance_real]
  simp only [getFrenet, hnext, hprev, hx0, hy0, hx1, hy1, hq, if_false, Int.toNat_natCast,
    hsum, hxx, hxy, hpn, distance_self, distance_scaled _ _ _ ht0, hd0]
  simp

/-- The sum of squares under the square root of a segment of an `arcLengthMap` is not
zero. -/
theorem segment_nondegenerate (maps_s maps_x maps_y : List ℝ)
    (hmap : arcLengthMap realMath maps_s maps_x maps_y) (i : Nat)
    (hi : i + 1 < maps_x.length) :
    (maps_x.getD (i + 1) 0 - maps_x.getD i 0) * (maps_x.getD (i + 1) 0 - maps_x.getD i 0)
      + (maps_y.getD (i + 1) 0 - maps_y.getD i 0) * (maps_y.getD (i + 1) 0 - maps_y.getD i 0)
      ≠ 0 := by
  have hpos := segment_length_pos maps_s maps_x maps_y hmap i hi
  intro h0
  rw [distance_real, h0, Real.sqrt_zero] at hpos
  exact lt_irrefl _ hpos

/-- The case of `getFrenet_between` for two consecutive waypoints of the list. -/
theorem getFrenet_on_segment (maps_s maps_x maps_y : List ℝ)
    (hmap : arcLengthMap realMath maps_s maps_x maps_y) (i : Nat)
    (hi : i + 1 < maps_x.length) (t x y theta : ℝ) (ht0 : 0 ≤ t)
    (hx : x = maps_x.getD i 0 + t * (maps_x.getD (i + 1) 0 - maps_x.getD i 0))
    (hy : y = maps_y.getD i 0 + t * (maps_y.getD (i + 1) 0 - maps_y.getD i 0))
    (hnext : NextWaypoint realMath x y theta maps_x maps_y = some ((i : Int) + 1)) :
    getFrenet realMath x y theta 0 0 maps_x maps_y
      = some (maps_s.getD i 0 + t * distance realMath (maps_x.getD i 0) (maps_y.getD i 0)
          (maps_x.getD (i + 1) 0) (maps_y.getD (i + 1) 0), 0) := by
  have hprev : (if (((i + 1 : Nat) : Int)) = 0 then (maps_x.length : Int) - 1
      else (((i + 1 : Nat) : Int)) - 1) = (i : Int) := by
    rw [if_neg (by omega)]
    omega
  exact getFrenet_between maps_s maps_x maps_y hmap i (i + 1) (by omega) hi hprev
    (segment_nondegenerate maps_s maps_x maps_y hmap i hi) t x y theta ht0 hx hy
    (by rw [hnext]; simp)

/-- For an `s` in the bracket of segment `j` and lateral offset 0, `getXY` returns the
point at arc length `s` on that segment. -/
theorem getXY_on_segment (maps_s maps_x maps_y : List ℝ)
    (hmap : arcLengthMap realMath maps_s maps_x maps_y) (j : Nat)
    (hj : j + 1 < maps_x.length) (s : ℝ)
    (hlo : maps_s.getD j 0 < s) (hhi : s ≤ maps_s.getD (j + 1) 0) :
    getXY realMath s 0 maps_s maps_x maps_y
      = some
        (maps_x.getD j 0 + (s - maps_s.getD j 0) *
            ((maps_x.getD (j + 1) 0 - maps_x.getD j 0) /
              distance realMath (maps_x.getD j 0) (maps_y.getD j 0)
                (maps_x.getD (j + 1) 0) (maps_y.getD (j + 1) 0)),
         maps_y.getD j 0 + (s - maps_s.getD j 0) *
            ((maps_y.getD (j + 1) 0 - maps_y.getD j 0) /
              distance realMath (maps_x.getD j 0) (maps_y.getD j 0)
                (maps_x.getD (j + 1) 0) (maps_y.getD (j + 1) 0))) := by
  have hlens : maps_s.length = maps_x.length := hmap.1
  have hlen : maps_y.length = maps_x.length := hmap.2.1
  have hscan : scanLoop s maps_s (maps_s.length + 1) (-1) = some (j : Int) := by
    have := scanLoop_eq realMath maps_s maps_x maps_y hmap j hj s hlo hhi (j + 1) 0
      (maps_s.length + 1) (by omega) (by omega)
    simpa using this
  have hx0 := vecGet_natCast maps_x j (by omega)
  have hy0 := vecGet_natCast maps_y j (by omega)
  have hs0 := vecGet_natCast maps_s j (by omega)
  have hx1 := vecGet_natCast_succ maps_x j hj
  have hy1 := vecGet_natCast_succ maps_y j (by omega)
  have hpos := segment_length_pos maps_s maps_x maps_y hmap j hj
  have hN : ¬ (maps_x.length = 0) := by omega
  have hwp2 : ((j : Int) + 1) % (maps_x.length : Int) = (j : Int) + 1 :=
    Int.emod_eq_of_lt (by omega) (by omega)
  rw [distance_eq_abs] at hpos ⊢
  generalize maps_x.getD j 0 = x0 at *
  generalize maps_y.getD j 0 = y0 at *
  generalize maps_s.getD j 0 = s0 at *
  generalize maps_x.getD (j + 1) 0 = x1 at *
  generalize maps_y.getD (j + 1) 0 = y1 at *
  have hne : Complex.mk (x1 - x0) (y1 - y0) ≠ 0 := by
    intro h0
    rw [h0, map_zero] at hpos
    exact lt_irrefl _ hpos
  simp only [getXY, hscan, hN, if_false, hwp2, hx0, hy0, hs0, hx1, hy1]
  simp only [realMath, Complex.cos_arg hne, Complex.sin_arg, zero_mul, add_zero]

/-- On a segment one of whose ends is the closest waypoint, heading along the segment
and away from the first waypoint of the map, `getFrenet` returns the arc length of
the position and the lateral offset 0. -/
theorem getFrenet_of_closest (maps_s maps_x maps_y : List ℝ)
    (hmap : arcLengthMap realMath maps_s maps_x maps_y) (i : Nat)
    (hi : i + 1 < maps_x.length) (t x y : ℝ) (ht0 : 0 ≤ t) (ht1 : t ≤ 1)
    (hstart : 0 < t ∨ 0 < i)
    (hx : x = maps_x.getD i 0 + t * (maps_x.getD (i + 1) 0 - maps_x.getD i 0))
    (hy : y = maps_y.getD i 0 + t * (maps_y.getD (i + 1) 0 - maps_y.getD i 0))
    (c : Int) (hc : ClosestWaypoint realMath x y maps_x maps_y = some c)
    (hci : c = (i : Int) ∨ c = (i : Int) + 1) :
    getFrenet realMath x y
        (realMath.atan2 (maps_y.getD (i + 1) 0 - maps_y.getD i 0)
          (maps_x.getD (i + 1) 0 - maps_x.getD i 0)) 0 0 maps_x maps_y
      = some (maps_s.getD i 0 + t * distance realMath (maps_x.getD i 0) (maps_y.getD i 0)
          (maps_x.getD (i + 1) 0) (maps_y.getD (i + 1) 0), 0) := by
  have hlen : maps_y.length = maps_x.length := hmap.2.1
  have hq := segment_nondegenerate maps_s maps_x maps_y hmap i hi
  have hne : Complex.mk (maps_x.getD (i + 1) 0 - maps_x.getD i 0)
      (maps_y.getD (i + 1) 0 - maps_y.getD i 0) ≠ 0 := by
    intro h0
    have hre := congrArg Complex.re h0
    have him := congrArg Complex.im h0
    simp only [Complex.zero_re, Complex.zero_im] at hre him
    rw [hre, him] at hq
    simp at hq
  rcases hci with h | h <;> subst h
  · rcases lt_or_eq_of_le ht0 with hpos | hzero
    · exact getFrenet_on_segment maps_s maps_x maps_y hmap i hi t x y _ ht0 hx hy
        (nextWaypoint_from_behind maps_x maps_y i hi hlen t x y hpos hx hy hne hc)
    · subst hzero
      have hipos : 0 < i := by
        rcases hstart with h | h
        · exact absurd h (lt_irrefl _)
        · exact h
      obtain ⟨j, rfl⟩ : ∃ j, i = j + 1 := ⟨i - 1, by omega⟩
      have hsucc : (if ((j + 1 : Nat) : Int) + 1 = (maps_x.length : Int) then (0 : Int)
          else ((j + 1 : Nat) : Int) + 1) = ((j + 1 : Nat) : Int) + 1 := by
        rw [if_neg (by omega)]
      rcases nextWaypoint_cases realMath x y
          (realMath.atan2 (maps_y.getD (j + 1 + 1) 0 - maps_y.getD (j + 1) 0)
            (maps_x.getD (j + 1 + 1) 0 - maps_x.getD (j + 1) 0))
          maps_x maps_y (j + 1) (by omega) hlen hc with hn | hn
      · have hprev : (if ((j + 1 : Nat) : Int) = 0 then (maps_x.length : Int) - 1
            else ((j + 1 : Nat) : Int) - 1) = (j : Int) := by
          rw [if_neg (by omega)]
          omega
        have hf := getFrenet_between maps_s maps_x maps_y hmap j (j + 1) (by omega) (by omega)
          hprev (segment_nondegenerate maps_s maps_x maps_y hmap j (by omega)) 1 x y _
          (by norm_num) (by rw [hx]; ring) (by rw [hy]; ring) hn
        rw [hf, (hmap.2.2.2 j (by omega)).2]
        simp
      · rw [hsucc] at hn
        exact getFrenet_on_segment maps_s maps_x maps_y hmap (j + 1) hi 0 x y _ (le_refl _)
          hx hy hn
  · rcases lt_or_eq_of_le ht1 with hlt | hone
    · exact getFrenet_on_segment maps_s maps_x maps_y hmap i hi t x y _ ht0 hx hy
        (nextWaypoint_from_ahead maps_x maps_y i hi hlen t x y hlt hx hy hc)
    · subst hone
      have hc1 : ClosestWaypoint realMath x y maps_x maps_y = some (((i + 1 : Nat) : Int)) := by
        rw [hc]; simp
      have hxe : x = maps_x.getD (i + 1) 0 := by rw [hx]; ring
      have hye : y = maps_y.getD (i + 1) 0 := by rw [hy]; ring
      have hs1 := (hmap.2.2.2 i hi).2
      rcases nextWaypoint_cases realMath x y
          (realMath.atan2 (maps_y.getD (i + 1) 0 - maps_y.getD i 0)
            (maps_x.getD (i + 1) 0 - maps_x.getD i 0))
          maps_x maps_y (i + 1) hi hlen hc1 with hn | hn
      · exact getFrenet_on_segment maps_s maps_x maps_y hmap i hi 1 x y _ ht0 hx hy
          (by rw [hn]; simp)
      · rcases Nat.lt_or_ge (i + 2) maps_x.length with hin | hout
        · rw [if_neg (by omega)] at hn
          have hf := getFrenet_on_segment maps_s maps_x maps_y hmap (i + 1) hin 0 x y _
            (le_refl _) (by rw [hxe]; ring) (by rw [hye]; ring) hn
          rw [hf, hs1]
          simp
        · have hNe : maps_x.length = i + 2 := by omega
          rw [if_pos (by omega)] at hn
          have hprev : (if ((0 : Nat) : Int) = 0 then (maps_x.length : Int) - 1
              else ((0 : Nat) : Int) - 1) = ((i + 1 : Nat) : Int) := by
            rw [if_pos (by simp)]
            omega
          have hqc : (maps_x.getD 0 0 - maps_x.getD (i + 1) 0)
                * (maps_x.getD 0 0 - maps_x.getD (i + 1) 0)
              + (maps_y.getD 0 0 - maps_y.getD (i + 1) 0)
                * (maps_y.getD 0 0 - maps_y.getD (i + 1) 0) ≠ 0 := by
            intro h0
            obtain ⟨ha, hb⟩ := (mul_self_add_mul_self_eq_zero).mp h0
            have hx00 : x = maps_x.getD 0 0 := by rw [hxe]; linarith
            have hy00 : y = maps_y.getD 0 0 := by rw [hye]; linarith
            have hfirst := closestWaypoint_at_first maps_x maps_y hlen (by omega)
            rw [← hx00, ← hy00, hc] at hfirst
            simp only [Option.some.injEq] at hfirst
            omega
          have hf := getFrenet_between maps_s maps_x maps_y hmap (i + 1) 0 hi (by omega)
            hprev hqc 0 x y _ (le_refl _) (by rw [hxe]; ring) (by rw [hye]; ring)
            (by rw [hn]; simp)
          rw [hf, hs1]
          simp

theorem segment_point_eq (x0 a s0 t L : ℝ) (hL : L ≠ 0) :
    x0 + (s0 + t * L - s0) * (a / L) = x0 + t * a := by
  field_simp
  ring

/-- For a position on segment `i` other than the first waypoint of the map, `getXY` at
the position's arc length and lateral offset 0 gives the position back. -/
theorem getXY_of_arc_length (maps_s maps_x maps_y : List ℝ)
    (hmap : arcLengthMap realMath maps_s maps_x maps_y) (i : Nat)
    (hi : i + 1 < maps_x.length) (t x y : ℝ) (ht0 : 0 ≤ t) (ht1 : t ≤ 1)
    (hstart : 0 < t ∨ 0 < i)
    (hx : x = maps_x.getD i 0 + t * (maps_x.getD (i + 1) 0 - maps_x.getD i 0))
    (hy : y = maps_y.getD i 0 + t * (maps_y.getD (i + 1) 0 - maps_y.getD i 0)) :
    getXY realMath
        (maps_s.getD i 0 + t * distance realMath (maps_x.getD i 0) (maps_y.getD i 0)
          (maps_x.getD (i + 1) 0) (maps_y.getD (i + 1) 0)) 0 maps_s maps_x maps_y
      = some (x, y) := by
  have hL := segment_length_pos maps_s maps_x maps_y hmap i hi
  have hs1 := (hmap.2.2.2 i hi).2
  rcases lt_or_eq_of_le ht0 with hpos | hzero
  · rw [getXY_on_segment maps_s maps_x maps_y hmap i hi _
      (by nlinarith) (by rw [hs1]; nlinarith)]
    rw [hx, hy, segment_point_eq _ _ _ _ _ (ne_of_gt hL),
      segment_point_eq _ _ _ _ _ (ne_of_gt hL)]
  · subst hzero
    have hipos : 0 < i := by
      rcases hstart with h | h
      · exact absurd h (lt_irrefl _)
      · exact h
    obtain ⟨j, rfl⟩ : ∃ j, i = j + 1 := ⟨i - 1, by omega⟩
    have hLj := segment_length_pos maps_s maps_x maps_y hmap j (by omega)
    have hsj := (hmap.2.2.2 j (by omega)).2
    rw [zero_mul, add_zero]
    rw [getXY_on_segment maps_s maps_x maps_y hmap j (by omega) _
      (by rw [hsj]; linarith) (le_refl _)]
    have e1 := segment_point_eq (maps_x.getD j 0)
      (maps_x.getD (j + 1) 0 - maps_x.getD j 0) (maps_s.getD j 0) 1 _ (ne_of_gt hLj)
    have e2 := segment_point_eq (maps_y.getD j 0)
      (maps_y.getD (j + 1) 0 - maps_y.getD j 0) (maps_s.getD j 0) 1 _ (ne_of_gt hLj)
    rw [one_mul] at e1 e2
    rw [hx, hy, hsj, e1, e2]
    congr 2 <;> ring

end RoundTripLemmas

section RoundTripClaim

theorem arcLengthMap_folded : arcLengthMap realMath (foldedS : List ℝ) foldedX foldedY := by
  have h25 : Real.sqrt 25 = 5 := by
    rw [show (25 : ℝ) = 5 * 5 by norm_num]; exact Real.sqrt_mul_self (by norm_num)
  have h100 : Real.sqrt 100 = 10 := by
    rw [show (100 : ℝ) = 10 * 10 by norm_num]; exact Real.sqrt_mul_self (by norm_num)
  refine ⟨rfl, rfl, rfl, ?_⟩
  intro k hk
  simp only [foldedX, List.length_cons, List.length_nil] at hk
  have hk4 : k < 4 := by omega
  interval_cases k <;>
    simp [foldedS, foldedX, foldedY, distance_real] <;> norm_num [h25, h100]

theorem arcLengthMap_straight :
    arcLengthMap realMath (straightS : List ℝ) straightX straightY := by
  refine ⟨rfl, rfl, rfl, ?_⟩
  intro k hk
  simp only [straightX, List.length_cons, List.length_nil] at hk
  have hk0 : k = 0 := by omega
  subst hk0
  simp [straightS, straightX, straightY, distance_real]

theorem closest_straight :
    ClosestWaypoint realMath (5 : ℝ) 0 straightX straightY = some 0 := by
  have h25 : Real.sqrt 25 = 5 := by
    rw [show (25 : ℝ) = 5 * 5 by norm_num]; exact Real.sqrt_mul_self (by norm_num)
  have t1 : Int.toNat 1 = 1 := rfl
  simp only [ClosestWaypoint, closestLoop, vecGet?, distance, realMath, straightX, straightY,
    List.length_cons, List.length_nil]
  norm_num [h25, t1]

/-- At the first waypoint of the folded track, heading along the first segment, the
round trip reads `maps_s` one entry past its end. -/
theorem round_trip_at_first_waypoint :
    frenetRoundTrip realMath (0 : ℝ) 0 0 foldedS foldedX foldedY = none := by
  have hc : ClosestWaypoint realMath (0 : ℝ) 0 foldedX foldedY = some 0 :=
    closestWaypoint_at_first foldedX foldedY rfl (by simp [foldedX])
  have hpi := Real.pi_pos
  have hnext : NextWaypoint realMath (0 : ℝ) 0 0 foldedX foldedY = some 0 := by
    have h0 : Complex.arg (Complex.mk 0 0) = 0 := Complex.arg_zero
    have hmin : min (2 * Real.pi - 0) 0 = (0 : ℝ) := min_eq_right (by linarith)
    have hgt : ¬ ((0 : ℝ) > Real.pi / 4) := by
      rw [gt_iff_lt, not_lt]; linarith
    simp only [NextWaypoint, hc]
    simp only [vecGet?, foldedX, foldedY, realMath]
    norm_num [h0, hmin]
    intro h
    linarith
  have t1 : Int.toNat 1 = 1 := rfl
  have t2 : Int.toNat 2 = 2 := rfl
  have t3 : Int.toNat 3 = 3 := rfl
  have t4 : Int.toNat 4 = 4 := rfl
  have t5 : Int.toNat 5 = 5 := rfl
  have h25 : Real.sqrt 25 = 5 := by
    rw [show (25 : ℝ) = 5 * 5 by norm_num]; exact Real.sqrt_mul_self (by norm_num)
  have h100 : Real.sqrt 100 = 10 := by
    rw [show (100 : ℝ) = 10 * 10 by norm_num]; exact Real.sqrt_mul_self (by norm_num)
  have hf : getFrenet realMath (0 : ℝ) 0 0 0 0 foldedX foldedY = some (22, 0) := by
    simp only [getFrenet, hnext]
    simp only [vecGet?, foldedX, foldedY, realMath, segmentSum, distance]
    norm_num [t1, t2, t3, t4, h25, h100]
  have hscan : scanLoop (22 : ℝ) foldedS ((foldedS : List ℝ).length + 1) (-1) = none := by
    simp only [scanLoop, vecGet?, foldedS, List.length_cons, List.length_nil]
    norm_num [t1, t2, t3, t4, t5]
  simp only [frenetRoundTrip, hf, getXY, hscan]

/-- C6 (as stated, refuted): on the folded track, whose `s` is the cumulative arc
length, the position (5, 0) lies on the segment from waypoint 0 to waypoint 1 and
heads along it, yet the round trip returns (5, 2): the closest waypoint is (5, 1),
on another part of the track.  At the first waypoint (0, 0) the round trip has no
result at all. -/
theorem C6_round_trip_fails_on_folded_track :
    arcLengthMap realMath (foldedS : List ℝ) foldedX foldedY ∧
    (5 : ℝ) = (foldedX : List ℝ).getD 0 0
      + (1 / 2) * ((foldedX : List ℝ).getD 1 0 - (foldedX : List ℝ).getD 0 0) ∧
    (0 : ℝ) = (foldedY : List ℝ).getD 0 0
      + (1 / 2) * ((foldedY : List ℝ).getD 1 0 - (foldedY : List ℝ).getD 0 0) ∧
    realMath.atan2 ((foldedY : List ℝ).getD 1 0 - (foldedY : List ℝ).getD 0 0)
      ((foldedX : List ℝ).getD 1 0 - (foldedX : List ℝ).getD 0 0) = 0 ∧
    frenetRoundTrip realMath (5 : ℝ) 0 0 foldedS foldedX foldedY = some (5, 2) ∧
    ((5 : ℝ), (2 : ℝ)) ≠ (5, 0) ∧
    frenetRoundTrip realMath (0 : ℝ) 0 0 foldedS foldedX foldedY = none := by
  refine ⟨arcLengthMap_folded, ?_, ?_, ?_, ?_, ?_, round_trip_at_first_waypoint⟩
  · simp [foldedX]
    norm_num
  · simp [foldedY]
  · have h : Complex.arg (Complex.mk 10 0) = 0 :=
      Complex.arg_eq_zero_iff.mpr ⟨by norm_num, rfl⟩
    simp [foldedX, foldedY, realMath, h]
  · simp only [frenetRoundTrip, frenet_folded, xy_folded]
  · intro h
    have := congrArg Prod.snd h
    norm_num at this

/-- C6 (amended): for every waypoint map ordered by strictly increasing `s`, with `s`
starting at 0 and equal to the cumulative arc length, and every position (x, y) on
the segment between two consecutive waypoints `i`, `i+1` of the list (ends
included) other than the first waypoint of the map, with the heading along the
segment, such that `ClosestWaypoint` returns `i` or `i+1`: `getXY` applied to the
`(s, d)` that `getFrenet` returns gives exactly (x, y), over the reals. -/
theorem C6_frenet_round_trip (maps_s maps_x maps_y : List ℝ) (i : Nat) (t x y : ℝ)
    (c : Int)
    (hmap : arcLengthMap realMath maps_s maps_x maps_y)
    (hi : i + 1 < maps_x.length) (ht0 : 0 ≤ t) (ht1 : t ≤ 1) (hstart : 0 < t ∨ 0 < i)
    (hx : x = maps_x.getD i 0 + t * (maps_x.getD (i + 1) 0 - maps_x.getD i 0))
    (hy : y = maps_y.getD i 0 + t * (maps_y.getD (i + 1) 0 - maps_y.getD i 0))
    (hc : ClosestWaypoint realMath x y maps_x maps_y = some c)
    (hci : c = (i : Int) ∨ c = (i : Int) + 1) :
    frenetRoundTrip realMath x y
        (realMath.atan2 (maps_y.getD (i + 1) 0 - maps_y.getD i 0)
          (maps_x.getD (i + 1) 0 - maps_x.getD i 0)) maps_s maps_x maps_y
      = some (x, y) := by
  have hf := getFrenet_of_closest maps_s maps_x maps_y hmap i hi t x y ht0 ht1 hstart hx hy
    c hc hci
  have hg := getXY_of_arc_length maps_s maps_x maps_y hmap i hi t x y ht0 ht1 hstart hx hy
  simp only [frenetRoundTrip, hf, hg]

theorem C6_frenet_round_trip_witness :
    arcLengthMap realMath (straightS : List ℝ) straightX straightY ∧
    0 + 1 < (straightX : List ℝ).length ∧ (0 : ℝ) ≤ 1 / 2 ∧ (1 / 2 : ℝ) ≤ 1 ∧
    ((0 : ℝ) < 1 / 2 ∨ 0 < 0) ∧
    ClosestWaypoint realMath (5 : ℝ) 0 straightX straightY = some 0 ∧
    frenetRoundTrip realMath (5 : ℝ) 0
        (realMath.atan2 ((straightY : List ℝ).getD (0 + 1) 0 - (straightY : List ℝ).getD 0 0)
          ((straightX : List ℝ).getD (0 + 1) 0 - (straightX : List ℝ).getD 0 0))
        straightS straightX straightY
      = some (5, 0) :=
  ⟨arcLengthMap_straight, by simp [straightX], by norm_num, by norm_num,
    Or.inl (by norm_num), closest_straight,
    C6_frenet_round_trip straightS straightX straightY 0 (1 / 2) 5 0 0
      arcLengthMap_straight (by simp [straightX]) (by norm_num) (by norm_num)
      (Or.inl (by norm_num)) (by simp [straightX]; norm_num) (by simp [straightY])
      closest_straight (Or.inl rfl)⟩

end RoundTripClaim

section LaneMoveLemmas

variable {K : Type} [LinearOrderedField K]

/-- The lane selection from lane 0, with the reads of the arrays resolved. -/
theorem selectLane_zero (st : LaneStats K) (car_speed : K) :
    selectLane st car_speed 0 = some
      (if st.min_dist_front.a1 > 120 ∧ st.min_dist_rear.a1 > 20 then 1
      else if st.min_dist_front.a0 < 60 then
        if st.min_dist_front.a1 > 180 ∧ st.min_dist_rear.a1 > 20 then 1
        else if st.min_dist_front.a1 > 30 ∧ st.min_dist_rear.a1 > 20
            ∧ car_speed > st.rear_speed.a1 - 5 then
          if st.min_dist_front.a0 < 30 then
            if st.front_speed.a1 > st.front_speed.a0 then 1 else 0
          else 1
        else 0
      else 0) := by
  simp only [selectLane, Arr3.get?, if_true, or_true]

/-- The lane selection from lane 2, with the reads of the arrays resolved. -/
theorem selectLane_two (st : LaneStats K) (car_speed : K) :
    selectLane st car_speed 2 = some
      (if st.min_dist_front.a1 > 120 ∧ st.min_dist_rear.a1 > 20 then 1
      else if st.min_dist_front.a2 < 60 then
        if st.min_dist_front.a1 > 180 ∧ st.min_dist_rear.a1 > 20 then 1
        else if st.min_dist_front.a1 > 30 ∧ st.min_dist_rear.a1 > 20
            ∧ car_speed > st.rear_speed.a1 - 5 then
          if st.min_dist_front.a2 < 30 then
            if st.front_speed.a1 > st.front_speed.a2 then 1 else 2
          else 1
        else 2
      else 2) := by
  have e0 : ((2 : Int) = 0) = False := by simp
  have e1 : ((2 : Int) = 1) = False := by simp
  simp only [selectLane, Arr3.get?, e0, e1, if_true, if_false, true_or]

theorem selectLane_near (st : LaneStats K) (car_speed : K) (lane : Int)
    (h : validLane lane) :
    ∃ l, selectLane st car_speed lane = some l ∧ validLane l ∧ |l - lane| ≤ 1 := by
  have near_ite : ∀ (c : Prop) [Decidable c] (a b : Int),
      (validLane a ∧ |a - lane| ≤ 1) → (validLane b ∧ |b - lane| ≤ 1) →
      (validLane (if c then a else b) ∧ |(if c then a else b) - lane| ≤ 1) := by
    intro c _ a b ha hb
    split <;> assumption
  rcases h with h | h | h <;> subst h
  · have n0 : validLane 0 ∧ |(0 : Int) - 0| ≤ 1 := ⟨Or.inl rfl, by decide⟩
    have n1 : validLane 1 ∧ |(1 : Int) - 0| ≤ 1 := ⟨Or.inr (Or.inl rfl), by decide⟩
    refine ⟨_, selectLane_zero st car_speed, ?_⟩
    repeat' first | assumption | apply near_ite
  · have n0 : validLane 0 ∧ |(0 : Int) - 1| ≤ 1 := ⟨Or.inl rfl, by decide⟩
    have n1 : validLane 1 ∧ |(1 : Int) - 1| ≤ 1 := ⟨Or.inr (Or.inl rfl), by decide⟩
    have n2 : validLane 2 ∧ |(2 : Int) - 1| ≤ 1 := ⟨Or.inr (Or.inr rfl), by decide⟩
    refine ⟨_, rfl, ?_⟩
    repeat' first | assumption | apply near_ite
  · have n1 : validLane 1 ∧ |(1 : Int) - 2| ≤ 1 := ⟨Or.inr (Or.inl rfl), by decide⟩
    have n2 : validLane 2 ∧ |(2 : Int) - 2| ≤ 1 := ⟨Or.inr (Or.inr rfl), by decide⟩
    refine ⟨_, selectLane_two st car_speed, ?_⟩
    repeat' first | assumption | apply near_ite

end LaneMoveLemmas

section DecisionClaims

theorem behavior_of_select {K : Type} [LinearOrderedField K]
    (st : LaneStats K) (car_speed v : K) (lane L : Int) (d fs : K)
    (hd : st.min_dist_front.get? lane = some d)
    (hsel : selectLane st car_speed lane = some L)
    (hfs : st.front_speed.get? L = some fs) :
    behavior st car_speed ⟨lane, v⟩ = some ⟨L, speedControl (decide (d < 30)) fs v⟩ := by
  simp only [behavior, hd, hsel, hfs]

theorem selectLane_override {K : Type} [LinearOrderedField K]
    (st : LaneStats K) (car_speed : K) (lane : Int) (hl : validLane lane)
    (h1 : st.min_dist_front.a1 > 120) (h2 : st.min_dist_rear.a1 > 20) :
    selectLane st car_speed lane = some 1 := by
  have hov : st.min_dist_front.a1 > 120 ∧ st.min_dist_rear.a1 > 20 := ⟨h1, h2⟩
  rcases hl with h | h | h <;> subst h
  · rw [selectLane_zero, if_pos hov]
  · have e0 : ((1 : Int) = 0) = False := by simp
    simp only [selectLane, Arr3.get?, e0, if_true, if_false, hov, and_self]
  · rw [selectLane_two, if_pos hov]

/-- C13: for every starting lane in 0..2, every state of the per-lane arrays and every
ego speed, the decision step completes and the lane it commits is again in 0..2 and
at most one lane away from the starting lane. -/
theorem C13_lane_valid_and_adjacent {K : Type} [LinearOrderedField K]
    (st : LaneStats K) (car_speed ref_vel : K) (lane : Int) (hl : validLane lane) :
    ∃ ps, behavior st car_speed ⟨lane, ref_vel⟩ = some ps ∧
      validLane ps.lane ∧ |ps.lane - lane| ≤ 1 := by
  obtain ⟨d, hd⟩ := arr3_get_of_validLane st.min_dist_front lane hl
  obtain ⟨L, hsel, hv, hnear⟩ := selectLane_near st car_speed lane hl
  obtain ⟨fs, hfs⟩ := arr3_get_of_validLane st.front_speed L hv
  exact ⟨_, behavior_of_select st car_speed ref_vel lane L d fs hd hsel hfs, hv, hnear⟩

theorem C13_lane_valid_and_adjacent_witness :
    validLane 2 ∧
    ∃ ps, behavior slowCentre 40 (⟨2, 40⟩ : PlannerState ℚ) = some ps ∧
      validLane ps.lane ∧ |ps.lane - 2| ≤ 1 :=
  ⟨by decide, C13_lane_valid_and_adjacent slowCentre 40 40 2 (by decide)⟩

/-- C14: for every starting lane in 0..2 and every other input, if the centre lane's
front clearance exceeds 120 and its rear clearance exceeds 20, the cycle completes
and commits lane 1. -/
theorem C14_centre_override {K : Type} [LinearOrderedField K]
    (st : LaneStats K) (car_speed ref_vel : K) (lane : Int) (hl : validLane lane)
    (h1 : st.min_dist_front.a1 > 120) (h2 : st.min_dist_rear.a1 > 20) :
    ∃ ps, behavior st car_speed ⟨lane, ref_vel⟩ = some ps ∧ ps.lane = 1 := by
  obtain ⟨d, hd⟩ := arr3_get_of_validLane st.min_dist_front lane hl
  have hsel := selectLane_override st car_speed lane hl h1 h2
  obtain ⟨fs, hfs⟩ := arr3_get_of_validLane st.front_speed 1 (Or.inr (Or.inl rfl))
  exact ⟨_, behavior_of_select st car_speed ref_vel lane 1 d fs hd hsel hfs, rfl⟩

theorem C14_centre_override_witness :
    validLane 0 ∧ (LaneStats.init : LaneStats ℚ).min_dist_front.a1 > 120 ∧
    (LaneStats.init : LaneStats ℚ).min_dist_rear.a1 > 20 ∧
    ∃ ps, behavior LaneStats.init 40 (⟨0, 40⟩ : PlannerState ℚ) = some ps ∧ ps.lane = 1 :=
  ⟨by decide, by norm_num [LaneStats.init], by norm_num [LaneStats.init],
    C14_centre_override LaneStats.init 40 40 0 (by decide)
      (by norm_num [LaneStats.init]) (by norm_num [LaneStats.init])⟩

/-- C15: with `d` the front distance of the lane before the switch, `L` the lane the
cycle commits and `fs` the front speed of `L`, the new reference speed is `v - 0.224`
if `d < 30` and `v > fs`; `v + 0.112` if `d < 30`, `v ≤ fs` and `v < 49.5`;
`v + 0.224` if `d ≥ 30` and `v < 49.5`; and `v` otherwise.  It differs from `v` by at
most 0.224. -/
theorem C15_speed_control_step {K : Type} [LinearOrderedField K]
    (st : LaneStats K) (car_speed v : K) (lane : Int) (hl : validLane lane) :
    ∃ d L fs v1, st.min_dist_front.get? lane = some d ∧
      st.front_speed.get? L = some fs ∧
      behavior st car_speed ⟨lane, v⟩ = some ⟨L, v1⟩ ∧
      v1 = (if d < 30 ∧ v > fs then v - 0.224
        else if d < 30 ∧ v ≤ fs ∧ v < 49.5 then v + 0.112
        else if ¬ d < 30 ∧ v < 49.5 then v + 0.224
        else v) ∧
      |v1 - v| ≤ 0.224 := by
  obtain ⟨d, hd⟩ := arr3_get_of_validLane st.min_dist_front lane hl
  obtain ⟨L, hsel, hv⟩ := selectLane_valid st car_speed lane hl
  obtain ⟨fs, hfs⟩ := arr3_get_of_validLane st.front_speed L hv
  refine ⟨d, L, fs, speedControl (decide (d < 30)) fs v, hd, hfs,
    behavior_of_select st car_speed v lane L d fs hd hsel hfs, ?_, ?_⟩
  · unfold speedControl
    by_cases h30 : d < 30 <;> by_cases hfsv : v > fs <;> by_cases h49 : v < 49.5 <;>
      simp [h30, hfsv, h49, le_of_not_gt, not_le.mpr]
  · unfold speedControl
    split_ifs <;> norm_num [abs_le]

theorem C15_speed_control_step_witness :
    validLane 0 ∧
    ∃ d L fs v1, slowCentre.min_dist_front.get? 0 = some d ∧
      slowCentre.front_speed.get? L = some fs ∧
      behavior slowCentre 40 (⟨0, 40⟩ : PlannerState ℚ) = some ⟨L, v1⟩ ∧
      v1 = (if d < 30 ∧ 40 > fs then 40 - 0.224
        else if d < 30 ∧ 40 ≤ fs ∧ (40 : ℚ) < 49.5 then 40 + 0.112
        else if ¬ d < 30 ∧ (40 : ℚ) < 49.5 then 40 + 0.224
        else 40) ∧
      |v1 - 40| ≤ 0.224 :=
  ⟨by decide, C15_speed_control_step slowCentre 40 40 0 (by decide)⟩

end DecisionClaims

section OuterLaneClaim

/-- C16 (as stated, refuted): in lane 0 with front clearance 40 (between 30 and 60)
and a centre lane with front clearance 100, the planner commits lane 1 although the
centre lane's front speed, 20, is below the front speed of lane 0, 30. -/
theorem C16_switch_without_speed_test :
    slowCentre.min_dist_front.a0 < 60 ∧ ¬ slowCentre.min_dist_front.a0 < 30 ∧
    slowCentre.min_dist_front.a1 ≤ 120 ∧
    ¬ slowCentre.front_speed.a1 > slowCentre.front_speed.a0 ∧
    ∃ ps, behavior slowCentre 40 (⟨0, 40⟩ : PlannerState ℚ) = some ps ∧ ps.lane = 1 := by
  refine ⟨by norm_num [slowCentre], by norm_num [slowCentre], by norm_num [slowCentre],
    by norm_num [slowCentre], ⟨1, 40 + 0.224⟩, ?_, rfl⟩
  have hsel : selectLane slowCentre 40 0 = some 1 := by
    rw [selectLane_zero]
    norm_num [slowCentre]
  rw [behavior_of_select slowCentre 40 40 0 1 40 20 (by simp [slowCentre, Arr3.get?]) hsel
    (by simp [slowCentre, Arr3.get?])]
  norm_num [speedControl]

/-- C16 (amended): in lane 0 or 2 with front clearance `d < 60` and a centre lane whose
front clearance is at most 120, the cycle completes and commits lane 1 if and only
if the centre lane has front clearance above 30, rear clearance above 20, the ego
speed exceeds the centre rear speed minus 5 and, only when `d < 30`, the centre
lane's front speed is strictly greater than the current lane's front speed; for `d`
in [30, 60) no speed comparison is made. -/
theorem C16_outer_lane_switch {K : Type} [LinearOrderedField K]
    (st : LaneStats K) (car_speed ref_vel : K) (lane : Int) (d fsl : K)
    (hl : lane = 0 ∨ lane = 2)
    (hd : st.min_dist_front.get? lane = some d)
    (hfsl : st.front_speed.get? lane = some fsl)
    (h60 : d < 60) (h120 : st.min_dist_front.a1 ≤ 120) :
    ∃ ps, behavior st car_speed ⟨lane, ref_vel⟩ = some ps ∧
      (ps.lane = 1 ↔
        (st.min_dist_front.a1 > 30 ∧ st.min_dist_rear.a1 > 20 ∧
          car_speed > st.rear_speed.a1 - 5 ∧
          (d < 30 → st.front_speed.a1 > fsl))) := by
  have hv : validLane lane := by
    rcases hl with h | h
    · exact Or.inl h
    · exact Or.inr (Or.inr h)
  obtain ⟨L, hsel, hLv⟩ := selectLane_valid st car_speed lane hv
  obtain ⟨fs, hfs⟩ := arr3_get_of_validLane st.front_speed L hLv
  refine ⟨_, behavior_of_select st car_speed ref_vel lane L d fs hd hsel hfs, ?_⟩
  have hn120 : ¬ (st.min_dist_front.a1 > 120) := not_lt.mpr h120
  have hn180 : ¬ (st.min_dist_front.a1 > 180) := by
    rw [gt_iff_lt, not_lt]
    linarith
  show L = 1 ↔ _
  rcases hl with h | h <;> subst h
  · simp only [Arr3.get?, if_true, Option.some.injEq] at hd hfsl
    subst hd
    subst hfsl
    rw [selectLane_zero, Option.some.injEq] at hsel
    subst hsel
    simp only [hn120, hn180, false_and, if_false, h60, if_true]
    by_cases c1 : st.min_dist_front.a1 > 30 ∧ st.min_dist_rear.a1 > 20
        ∧ car_speed > st.rear_speed.a1 - 5
    · by_cases c2 : st.min_dist_front.a0 < 30
      · by_cases c3 : st.front_speed.a1 > st.front_speed.a0 <;>
          simp [c1, c2, c3]
      · simp [c1, c2]
    · have : ¬ (st.min_dist_front.a1 > 30 ∧ st.min_dist_rear.a1 > 20 ∧
          car_speed > st.rear_speed.a1 - 5 ∧
          (st.min_dist_front.a0 < 30 → st.front_speed.a1 > st.front_speed.a0)) :=
        fun h => c1 ⟨h.1, h.2.1, h.2.2.1⟩
      simp only [c1, if_false, this, iff_false]
      decide
  · have e0 : ((2 : Int) = 0) = False := by simp
    have e1 : ((2 : Int) = 1) = False := by simp
    simp only [Arr3.get?, e0, e1, if_true, if_false, Option.some.injEq] at hd hfsl
    subst hd
    subst hfsl
    rw [selectLane_two, Option.some.injEq] at hsel
    subst hsel
    simp only [hn120, hn180, false_and, if_false, h60, if_true]
    by_cases c1 : st.min_dist_front.a1 > 30 ∧ st.min_dist_rear.a1 > 20
        ∧ car_speed > st.rear_speed.a1 - 5
    · by_cases c2 : st.min_dist_front.a2 < 30
      · by_cases c3 : st.front_speed.a1 > st.front_speed.a2 <;>
          simp [c1, c2, c3]
      · simp [c1, c2]
    · have : ¬ (st.min_dist_front.a1 > 30 ∧ st.min_dist_rear.a1 > 20 ∧
          car_speed > st.rear_speed.a1 - 5 ∧
          (st.min_dist_front.a2 < 30 → st.front_speed.a1 > st.front_speed.a2)) :=
        fun h => c1 ⟨h.1, h.2.1, h.2.2.1⟩
      simp only [c1, if_false, this, iff_false]
      decide

theorem C16_outer_lane_switch_witness :
    ((0 : Int) = 0 ∨ (0 : Int) = 2) ∧
    slowCentre.min_dist_front.get? 0 = some 40 ∧
    slowCentre.front_speed.get? 0 = some 30 ∧
    (40 : ℚ) < 60 ∧ slowCentre.min_dist_front.a1 ≤ 120 ∧
    ∃ ps, behavior slowCentre 40 (⟨0, 40⟩ : PlannerState ℚ) = some ps ∧
      (ps.lane = 1 ↔
        (slowCentre.min_dist_front.a1 > 30 ∧ slowCentre.min_dist_rear.a1 > 20 ∧
          40 > slowCentre.rear_speed.a1 - 5 ∧
          ((40 : ℚ) < 30 → slowCentre.front_speed.a1 > 30))) :=
  ⟨Or.inl rfl, by simp [slowCentre, Arr3.get?], by simp [slowCentre, Arr3.get?],
    by norm_num, by norm_num [slowCentre],
    C16_outer_lane_switch slowCentre 40 40 0 40 30 (Or.inl rfl)
      (by simp [slowCentre, Arr3.get?]) (by simp [slowCentre, Arr3.get?])
      (by norm_num) (by norm_num [slowCentre])⟩

end OuterLaneClaim

section FrameClaims

/-- The sampled points of the path assembly are `worldPoint`s. -/
theorem samplePoints_succ {K : Type} [LinearOrderedField K] (E : MathEnv K) (s : K → K)
    (ref_x ref_y ref_yaw ref_vel target_dist : K) (n : Nat) (x_add_on : K) :
    samplePoints E s ref_x ref_y ref_yaw ref_vel target_dist (n + 1) x_add_on
      = worldPoint E ref_x ref_y ref_yaw
          (x_add_on + 30 / (target_dist / (0.02 * ref_vel / 2.24)))
          (s (x_add_on + 30 / (target_dist / (0.02 * ref_vel / 2.24))))
        :: samplePoints E s ref_x ref_y ref_yaw ref_vel target_dist n
          (x_add_on + 30 / (target_dist / (0.02 * ref_vel / 2.24))) := rfl

/-- C20: over the reals, for every reference pose and every world point, the
world-to-local transform of the anchor points followed by the local-to-world
transform of the sampled points gives the point back, and the reference position
itself has local coordinates (0, 0). -/
theorem C20_frame_round_trip (ref_x ref_y ref_yaw px py : ℝ) :
    worldPoint realMath ref_x ref_y ref_yaw
        (localPoint realMath ref_x ref_y ref_yaw px py).1
        (localPoint realMath ref_x ref_y ref_yaw px py).2 = (px, py) ∧
    localPoint realMath ref_x ref_y ref_yaw ref_x ref_y = (0, 0) := by
  have h := Real.sin_sq_add_cos_sq ref_yaw
  constructor
  · simp only [worldPoint, localPoint, realMath, neg_one_mul, Real.sin_neg]
    refine Prod.ext ?_ ?_
    · show _ = px
      linear_combination (px - ref_x) * h
    · show _ = py
      linear_combination (py - ref_y) * h
  · simp [localPoint]

end FrameClaims

section AnchorClaim

/-- With fewer than two previous points the first anchor is computed from the raw yaw
and the reference heading from its conversion to radians. -/
theorem startAnchors_short {K : Type} [LinearOrderedField K] (E : MathEnv K)
    (car_x car_y car_yaw : K) (previous_path_x previous_path_y : List K)
    (h : previous_path_x.length < 2) :
    startAnchors E car_x car_y car_yaw previous_path_x previous_path_y
      = some ⟨[car_x - E.cos car_yaw, car_x], [car_y - E.sin car_yaw, car_y],
          car_x, car_y, car_yaw * E.pi / 180⟩ := by
  have h2 : ((previous_path_x.length : Int) < 2) := by omega
  simp only [startAnchors, h2, if_true, deg2rad]

/-- C18: with no previous path, position (0, 0) and a telemetry yaw of 1 degree, the
reference heading is `π / 180` radians, the second anchor is the current position,
but the first anchor is `(-cos 1, -sin 1)`, computed from the yaw in degrees taken
as radians, and not `(-cos (π / 180), -sin (π / 180))`. -/
theorem C18_anchor_uses_yaw_in_degrees :
    ∃ a, startAnchors realMath (0 : ℝ) 0 1 [] [] = some a ∧
      a.ref_yaw = deg2rad realMath 1 ∧ deg2rad realMath (1 : ℝ) = Real.pi / 180 ∧
      a.ptsx = [0 - Real.cos 1, 0] ∧ a.ptsy = [0 - Real.sin 1, 0] ∧
      Real.cos 1 ≠ Real.cos (Real.pi / 180) := by
  refine ⟨_, startAnchors_short realMath 0 0 1 [] [] (by simp), ?_, ?_, rfl, rfl, ?_⟩
  · simp [deg2rad]
  · simp [deg2rad, realMath]
  · intro hcos
    have hpi3 := Real.pi_gt_three
    have hpi4 := Real.pi_le_four
    have h1 : (1 : ℝ) ∈ Set.Icc 0 Real.pi := ⟨by norm_num, by linarith⟩
    have h2 : Real.pi / 180 ∈ Set.Icc 0 Real.pi := ⟨by positivity, by linarith⟩
    have := Real.injOn_cos h1 h2 hcos
    linarith

end AnchorClaim

section FrenetTotality

variable {K : Type} [LinearOrderedField K]

/-- The loop of `ClosestWaypoint` completes and returns the waypoint it started with
or an index it visited. -/
theorem closestLoop_total (E : MathEnv K) (x y : K) (maps_x maps_y : List K)
    (hlen : maps_y.length = maps_x.length) :
    ∀ (n k : Nat) (closestLen : K) (cw : Int), k + n ≤ maps_x.length →
      ∃ c, closestLoop E x y maps_x maps_y n (k : Int) closestLen cw = some c ∧
        (c = cw ∨ ((k : Int) ≤ c ∧ c < (k : Int) + n)) := by
  intro n
  induction n with
  | zero => intro k len cw _; exact ⟨cw, rfl, Or.inl rfl⟩
  | succ n ih =>
    intro k len cw hk
    have hx0 := vecGet_natCast maps_x k (by omega)
    have hy0 := vecGet_natCast maps_y k (by omega)
    simp only [closestLoop, hx0, hy0]
    split
    · obtain ⟨c, hc, hr⟩ := ih (k + 1) _ (k : Int) (by omega)
      refine ⟨c, by simpa using hc, Or.inr ?_⟩
      rcases hr with h | h
      · subst h; constructor <;> push_cast <;> omega
      · push_cast at h ⊢; omega
    · obtain ⟨c, hc, hr⟩ := ih (k + 1) len cw (by omega)
      refine ⟨c, by simpa using hc, ?_⟩
      rcases hr with h | h
      · exact Or.inl h
      · right; push_cast at h ⊢; omega

/-- On a non-empty map `ClosestWaypoint` returns an index of the map. -/
theorem closestWaypoint_total (E : MathEnv K) (x y : K) (maps_x maps_y : List K)
    (hlen : maps_y.length = maps_x.length) (hN : 0 < maps_x.length) :
    ∃ c : Nat, ClosestWaypoint E x y maps_x maps_y = some (c : Int) ∧ c < maps_x.length := by
  obtain ⟨c, hc, hr⟩ := closestLoop_total E x y maps_x maps_y hlen maps_x.length 0 100000 0
    (by omega)
  have hc0 : 0 ≤ c ∧ c < (maps_x.length : Int) := by
    rcases hr with h | h
    · subst h; omega
    · push_cast at h; omega
  refine ⟨c.toNat, ?_, by omega⟩
  rw [ClosestWaypoint]
  have : ((c.toNat : Nat) : Int) = c := Int.toNat_of_nonneg hc0.1
  rw [this]
  simpa using hc

/-- On a non-empty map `NextWaypoint` returns an index of the map. -/
theorem nextWaypoint_total (E : MathEnv K) (x y theta : K) (maps_x maps_y : List K)
    (hlen : maps_y.length = maps_x.length) (hN : 0 < maps_x.length) :
    ∃ nw : Nat, NextWaypoint E x y theta maps_x maps_y = some (nw : Int)
      ∧ nw < maps_x.length := by
  obtain ⟨c, hc, hcN⟩ := closestWaypoint_total E x y maps_x maps_y hlen hN
  rcases nextWaypoint_cases E x y theta maps_x maps_y c hcN hlen hc with h | h
  · exact ⟨c, h, hcN⟩
  · by_cases hw : (c : Int) + 1 = (maps_x.length : Int)
    · rw [if_pos hw] at h
      exact ⟨0, by simpa using h, hN⟩
    · rw [if_neg hw] at h
      exact ⟨c + 1, by simpa using h, by omega⟩

/-- The loop of lines 127-130 completes for every number of segments below the size of
the map. -/
theorem segmentSum_total (E : MathEnv K) (maps_x maps_y : List K)
    (hlen : maps_y.length = maps_x.length) (n : Nat) (hn : n < maps_x.length) :
    ∃ v, segmentSum E maps_x maps_y n = some v := by
  induction n with
  | zero => exact ⟨0, rfl⟩
  | succ n ih =>
    obtain ⟨v, hv⟩ := ih (by omega)
    have hx0 := vecGet_natCast maps_x n (by omega)
    have hy0 := vecGet_natCast maps_y n (by omega)
    have hx1 := vecGet_natCast_succ maps_x n hn
    have hy1 := vecGet_natCast_succ maps_y n (by omega)
    refine ⟨v + distance E (maps_x.getD n 0) (maps_y.getD n 0) (maps_x.getD (n + 1) 0)
      (maps_y.getD (n + 1) 0), ?_⟩
    simp only [segmentSum, hv, hx0, hy0, hx1, hy1]

/-- On a non-empty map `getFrenet` selects a segment of the map, and it has a result
exactly when the two ends of that segment differ. -/
theorem getFrenet_none_iff (E : MathEnv K) (x y theta vx vy : K) (maps_x maps_y : List K)
    (hlen : maps_y.length = maps_x.length) (hN : 0 < maps_x.length) :
    ∃ (next_wp prev_wp : Nat),
      NextWaypoint E x y theta maps_x maps_y = some (next_wp : Int) ∧
      next_wp < maps_x.length ∧ prev_wp < maps_x.length ∧
      (prev_wp : Int) = (if (next_wp : Int) = 0 then (maps_x.length : Int) - 1
        else (next_wp : Int) - 1) ∧
      (getFrenet E x y theta vx vy maps_x maps_y = none ↔
        (maps_x.getD next_wp 0 = maps_x.getD prev_wp 0 ∧
          maps_y.getD next_wp 0 = maps_y.getD prev_wp 0)) := by
  obtain ⟨nw, hnw, hnwN⟩ := nextWaypoint_total E x y theta maps_x maps_y hlen hN
  obtain ⟨pw, hpw⟩ : ∃ pw : Nat, (pw : Int)
      = (if (nw : Int) = 0 then (maps_x.length : Int) - 1 else (nw : Int) - 1) := by
    by_cases h0 : (nw : Int) = 0
    · exact ⟨maps_x.length - 1, by rw [if_pos h0]; omega⟩
    · exact ⟨nw - 1, by rw [if_neg h0]; omega⟩
  have hpwN : pw < maps_x.length := by
    by_cases h0 : (nw : Int) = 0
    · rw [if_pos h0] at hpw; omega
    · rw [if_neg h0] at hpw; omega
  refine ⟨nw, pw, hnw, hnwN, hpwN, hpw, ?_⟩
  have hx0 := vecGet_natCast maps_x pw hpwN
  have hy0 := vecGet_natCast maps_y pw (by omega)
  have hx1 := vecGet_natCast maps_x nw hnwN
  have hy1 := vecGet_natCast maps_y nw (by omega)
  obtain ⟨v, hv⟩ := segmentSum_total E maps_x maps_y hlen pw hpwN
  have hsq : (maps_x.getD nw 0 - maps_x.getD pw 0) * (maps_x.getD nw 0 - maps_x.getD pw 0)
      + (maps_y.getD nw 0 - maps_y.getD pw 0) * (maps_y.getD nw 0 - maps_y.getD pw 0) = 0
      ↔ (maps_x.getD nw 0 = maps_x.getD pw 0 ∧ maps_y.getD nw 0 = maps_y.getD pw 0) := by
    rw [mul_self_add_mul_self_eq_zero, sub_eq_zero, sub_eq_zero]
  rw [← hsq]
  simp only [getFrenet, hnw, ← hpw, hx0, hy0, hx1, hy1, Int.toNat_natCast, hv]
  split_ifs with hz
  · exact ⟨fun _ => hz, fun _ => rfl⟩
  · exact ⟨fun h => (by cases h), fun h => absurd h hz⟩

end FrenetTotality

section DegenerateClaim

/-- C19 (as stated, refuted): on the map with the single waypoint (0, 0) the selected
`prev_wp` and `next_wp` are the same waypoint, the denominator of `proj_norm` is
zero and `getFrenet` has no finite result. -/
theorem C19_single_waypoint_divides_by_zero :
    getFrenet realMath (3 : ℝ) 4 0 0 0 singleX singleY = none := by
  obtain ⟨nw, pw, _, hnw, hpw, _, hiff⟩ :=
    getFrenet_none_iff realMath (3 : ℝ) 4 0 0 0 singleX singleY rfl (by simp [singleX])
  simp only [singleX, List.length_cons, List.length_nil] at hnw hpw
  have hn0 : nw = 0 := by omega
  have hp0 : pw = 0 := by omega
  subst hn0
  subst hp0
  exact hiff.mpr ⟨rfl, rfl⟩

/-- C19 (amended): `getFrenet` has no guard.  On every non-empty map with as many x as
y values it selects `next_wp = NextWaypoint(...)` and `prev_wp = next_wp - 1` (the
last index when `next_wp = 0`), both indices of the map; when these two waypoints have
the same coordinates the projection divides by zero and there is no finite `(s, d)`,
and this is so on every map of a single waypoint. -/
theorem C19_zero_length_segment_not_guarded {K : Type} [LinearOrderedField K]
    (E : MathEnv K) (x y theta vx vy : K) (maps_x maps_y : List K)
    (hlen : maps_y.length = maps_x.length) (hN : 0 < maps_x.length) :
    (∃ (next_wp prev_wp : Nat),
      NextWaypoint E x y theta maps_x maps_y = some (next_wp : Int) ∧
      next_wp < maps_x.length ∧ prev_wp < maps_x.length ∧
      (prev_wp : Int) = (if (next_wp : Int) = 0 then (maps_x.length : Int) - 1
        else (next_wp : Int) - 1) ∧
      ((maps_x.getD next_wp 0 = maps_x.getD prev_wp 0 ∧
          maps_y.getD next_wp 0 = maps_y.getD prev_wp 0) →
        getFrenet E x y theta vx vy maps_x maps_y = none)) ∧
    (maps_x.length = 1 → getFrenet E x y theta vx vy maps_x maps_y = none) := by
  obtain ⟨nw, pw, hnw, hnwN, hpwN, hpw, hiff⟩ :=
    getFrenet_none_iff E x y theta vx vy maps_x maps_y hlen hN
  refine ⟨⟨nw, pw, hnw, hnwN, hpwN, hpw, hiff.mpr⟩, ?_⟩
  intro h1
  have hn0 : nw = 0 := by omega
  have hp0 : pw = 0 := by omega
  subst hn0
  subst hp0
  exact hiff.mpr ⟨rfl, rfl⟩

theorem C19_zero_length_segment_not_guarded_witness :
    (coincidentY : List ℝ).length = (coincidentX : List ℝ).length ∧
    0 < (coincidentX : List ℝ).length ∧
    ∃ (next_wp prev_wp : Nat),
      NextWaypoint realMath (3 : ℝ) 4 0 coincidentX coincidentY = some (next_wp : Int) ∧
      next_wp < (coincidentX : List ℝ).length ∧ prev_wp < (coincidentX : List ℝ).length ∧
      (prev_wp : Int) = (if (next_wp : Int) = 0 then ((coincidentX : List ℝ).length : Int) - 1
        else (next_wp : Int) - 1) ∧
      ((coincidentX : List ℝ).getD next_wp 0 = (coincidentX : List ℝ).getD prev_wp 0 ∧
        (coincidentY : List ℝ).getD next_wp 0 = (coincidentY : List ℝ).getD prev_wp 0) ∧
      getFrenet realMath (3 : ℝ) 4 0 0 0 coincidentX coincidentY = none := by
  obtain ⟨⟨nw, pw, hnw, hnwN, hpwN, hpw, himp⟩, _⟩ :=
    C19_zero_length_segment_not_guarded realMath (3 : ℝ) 4 0 0 0 coincidentX coincidentY
      rfl (by simp [coincidentX])
  have hx : ∀ n : Nat, (coincidentX : List ℝ).getD n 0 = 0 := by
    intro n
    rcases n with _ | _ | n <;> simp [coincidentX]
  have hy : ∀ n : Nat, (coincidentY : List ℝ).getD n 0 = 0 := by
    intro n
    rcases n with _ | _ | n <;> simp [coincidentY]
  have hsame : (coincidentX : List ℝ).getD nw 0 = (coincidentX : List ℝ).getD pw 0 ∧
      (coincidentY : List ℝ).getD nw 0 = (coincidentY : List ℝ).getD pw 0 :=
    ⟨by rw [hx nw, hx pw], by rw [hy nw, hy pw]⟩
  exact ⟨rfl, by simp [coincidentX], nw, pw, hnw, hnwN, hpwN, hpw, hsame, himp hsame⟩

end DegenerateClaim

section ScanClaim

/-- C11: on the map with `maps_s = [0, 10]`, which is non-empty, strictly increasing and
starts at 0, with any `max_s` above 15: for `s = 0` the scan stops at once with
`prev_wp = -1` and `getXY` reads `maps_x`, `maps_y`, `maps_s` at index -1; for
`s = 15` the scan reads `maps_s[2]`, one past the end, before it tests `prev_wp`.
Neither call has a result. -/
theorem C11_getXY_reads_outside_the_map (E : MathEnv ℚ) (d : ℚ) :
    scanLoop (0 : ℚ) straightS ((straightS : List ℚ).length + 1) (-1) = some (-1) ∧
    vecGet? (straightX : List ℚ) (-1) = none ∧
    getXY E 0 d straightS straightX straightY = none ∧
    scanLoop (15 : ℚ) straightS 1 1 = none ∧
    vecGet? (straightS : List ℚ) (1 + 1) = none ∧
    scanLoop (15 : ℚ) straightS ((straightS : List ℚ).length + 1) (-1) = none ∧
    getXY E 15 d straightS straightX straightY = none := by
  have t1 : Int.toNat 1 = 1 := rfl
  have t2 : Int.toNat 2 = 2 := rfl
  have h0 : scanLoop (0 : ℚ) straightS ((straightS : List ℚ).length + 1) (-1)
      = some (-1) := by
    simp [scanLoop, vecGet?, straightS]
  have h15 : scanLoop (15 : ℚ) straightS ((straightS : List ℚ).length + 1) (-1) = none := by
    simp only [scanLoop, vecGet?, straightS, List.length_cons, List.length_nil]
    norm_num [t1, t2]
  refine ⟨h0, by simp [vecGet?], ?_, ?_, ?_, h15, ?_⟩
  · simp only [getXY, h0]
    simp [vecGet?, straightX, straightY]
  · simp only [scanLoop, vecGet?, straightS]
    norm_num [t2]
  · simp only [vecGet?, straightS]
    norm_num [t2]
  · simp only [getXY, h15]

end ScanClaim

section ClosestClaim

/-- C12 (as stated, refuted): for the query point (0, 0) and the waypoints (300000, 0),
(200000, 0) the function returns index 0, although waypoint 1 is strictly closer: no
distance is below the initial `closestLen = 100000`, so the initial index is never
replaced. -/
theorem C12_far_query_returns_index_zero :
    ClosestWaypoint realMath (0 : ℝ) 0 farX farY = some 0 ∧
    distance realMath (0 : ℝ) 0 ((farX : List ℝ).getD 1 0) ((farY : List ℝ).getD 1 0)
      < distance realMath (0 : ℝ) 0 ((farX : List ℝ).getD 0 0) ((farY : List ℝ).getD 0 0) := by
  have h3 : Real.sqrt 90000000000 = 300000 := by
    rw [show (90000000000 : ℝ) = 300000 * 300000 by norm_num]
    exact Real.sqrt_mul_self (by norm_num)
  have h2 : Real.sqrt 40000000000 = 200000 := by
    rw [show (40000000000 : ℝ) = 200000 * 200000 by norm_num]
    exact Real.sqrt_mul_self (by norm_num)
  have t1 : Int.toNat 1 = 1 := rfl
  constructor
  · simp only [ClosestWaypoint, closestLoop, vecGet?, distance, realMath, farX, farY,
      List.length_cons, List.length_nil]
    norm_num [t1, h3, h2]
  · simp only [distance, realMath, farX, farY]
    norm_num [h3, h2]

end ClosestClaim

section NearestLemmas

variable {K : Type} [LinearOrderedField K]

theorem foldr_min_init (a d0 : K) (l : List K) :
    l.foldr min (min d0 a) = min a (l.foldr min d0) := by
  induction l with
  | nil => simp [min_comm]
  | cons b l ih => simp only [List.foldr_cons, ih, min_left_comm]

theorem nearestDistance_cons (d0 : K) (p : K × K) (l : List (K × K)) :
    nearestDistance d0 (p :: l) = min p.1 (nearestDistance d0 l) := rfl

theorem nearestDistance_le_init (d0 : K) (l : List (K × K)) :
    nearestDistance d0 l ≤ d0 := by
  induction l with
  | nil => exact le_refl _
  | cons p l ih => rw [nearestDistance_cons]; exact le_trans (min_le_right _ _) ih

theorem nearestDistance_init_min (a d0 : K) (l : List (K × K)) :
    nearestDistance (min d0 a) l = min a (nearestDistance d0 l) := by
  simp only [nearestDistance, foldr_min_init]

theorem nearestDistance_attained (l : List (K × K)) :
    ∀ d0 : K, nearestDistance d0 l < d0 → ∃ q ∈ l, q.1 = nearestDistance d0 l := by
  induction l with
  | nil => intro d0 h; exact absurd h (lt_irrefl _)
  | cons q l ih =>
    intro d0 h
    rw [nearestDistance_cons] at h ⊢
    by_cases hq : q.1 ≤ nearestDistance d0 l
    · exact ⟨q, List.mem_cons_self _ _, (min_eq_left hq).symm⟩
    · have hmin : min q.1 (nearestDistance d0 l) = nearestDistance d0 l :=
        min_eq_right (le_of_lt (not_le.mp hq))
      rw [hmin] at h ⊢
      obtain ⟨r, hr, hr1⟩ := ih d0 h
      exact ⟨r, List.mem_cons_of_mem _ hr, hr1⟩

theorem find_attaining (d0 : K) (l : List (K × K)) (h : nearestDistance d0 l < d0) :
    ∃ q, l.find? (fun p => decide (p.1 = nearestDistance d0 l)) = some q := by
  obtain ⟨q, hq, hq1⟩ := nearestDistance_attained l d0 h
  have : (l.find? (fun p => decide (p.1 = nearestDistance d0 l))).isSome = true := by
    rw [List.find?_isSome]
    exact ⟨q, hq, by simpa using hq1⟩
  exact Option.isSome_iff_exists.mp this

/-- The running pair of the loop is the minimum distance with the speed of the first
candidate that attains it. -/
theorem trackNearest_eq (l : List (K × K)) :
    ∀ d0 v0 : K, trackNearest (d0, v0) l = (nearestDistance d0 l, nearestSpeed d0 v0 l) := by
  induction l with
  | nil =>
    intro d0 v0
    simp [trackNearest, nearestDistance, nearestSpeed]
  | cons p l ih =>
    intro d0 v0
    have hm : nearestDistance (min d0 p.1) l = nearestDistance d0 (p :: l) := by
      rw [nearestDistance_init_min, nearestDistance_cons]
    by_cases hp : p.1 < d0
    · have hmin : min d0 p.1 = p.1 := min_eq_right (le_of_lt hp)
      rw [hmin] at hm
      have hstep : trackNearest (d0, v0) (p :: l) = trackNearest (p.1, p.2) l := by
        simp only [trackNearest, hp, if_true]
      rw [hstep, ih p.1 p.2, hm]
      congr 1
      have hle : nearestDistance d0 (p :: l) ≤ p.1 := by
        rw [nearestDistance_cons]; exact min_le_left _ _
      have hlt0 : nearestDistance d0 (p :: l) < d0 := lt_of_le_of_lt hle hp
      simp only [nearestSpeed, hm, hlt0, if_true]
      by_cases hlt : nearestDistance d0 (p :: l) < p.1
      · have hne : ¬ (p.1 = nearestDistance d0 (p :: l)) := ne_of_gt hlt
        obtain ⟨q, hq⟩ := find_attaining p.1 l (by rw [hm]; exact hlt)
        rw [hm] at hq
        simp only [hlt, if_true, List.find?_cons, hne, decide_False, hq]
      · have heq : p.1 = nearestDistance d0 (p :: l) := le_antisymm (not_lt.mp hlt) hle
        simp only [hlt, if_false, List.find?_cons, heq, decide_True, lt_irrefl]
    · have hmin : min d0 p.1 = d0 := min_eq_left (not_lt.mp hp)
      rw [hmin] at hm
      have hstep : trackNearest (d0, v0) (p :: l) = trackNearest (d0, v0) l := by
        simp only [trackNearest, hp, if_false]
      rw [hstep, ih d0 v0, hm]
      congr 1
      simp only [nearestSpeed, hm]
      by_cases hlt : nearestDistance d0 (p :: l) < d0
      · have hne : ¬ (p.1 = nearestDistance d0 (p :: l)) :=
          ne_of_gt (lt_of_lt_of_le hlt (not_lt.mp hp))
        simp only [hlt, if_true, List.find?_cons, hne, decide_False]
      · simp only [hlt, if_false]

theorem trackNearest_step (d0 v0 dist speed : K) (rest : List (K × K)) :
    trackNearest (d0, v0) ((dist, speed) :: rest)
      = trackNearest (min d0 dist, if dist < d0 then speed else v0) rest := by
  by_cases h : dist < d0
  · simp only [trackNearest, h, if_true, min_eq_right (le_of_lt h)]
  · simp only [trackNearest, h, if_false, min_eq_left (not_lt.mp h)]

end NearestLemmas

section NearestLoop

variable {K : Type} [LinearOrderedField K] [FloorRing K]

theorem frontCandidates_cons_keep (E : MathEnv K) (prev_size : Nat) (car_s : K) (L : Int)
    (o : TrackedObject K) (rest : List (TrackedObject K))
    (hi : laneIndex o.d = some L) (hr : isRear car_s (checkS E prev_size o) = false) :
    frontCandidates E prev_size car_s L (o :: rest)
      = (checkS E prev_size o - car_s, checkSpeed E o)
        :: frontCandidates E prev_size car_s L rest := by
  simp [frontCandidates, List.filter_cons, hi, hr]

theorem frontCandidates_cons_drop (E : MathEnv K) (prev_size : Nat) (car_s : K) (L : Int)
    (o : TrackedObject K) (rest : List (TrackedObject K))
    (h : laneIndex o.d ≠ some L ∨ isRear car_s (checkS E prev_size o) = true) :
    frontCandidates E prev_size car_s L (o :: rest)
      = frontCandidates E prev_size car_s L rest := by
  rcases h with h | h <;> simp [frontCandidates, List.filter_cons, h]

theorem rearCandidates_cons_keep (E : MathEnv K) (prev_size : Nat) (car_s : K) (L : Int)
    (o : TrackedObject K) (rest : List (TrackedObject K))
    (hi : laneIndex o.d = some L) (hr : isRear car_s (checkS E prev_size o) = true) :
    rearCandidates E prev_size car_s L (o :: rest)
      = (car_s - checkS E prev_size o, checkSpeed E o)
        :: rearCandidates E prev_size car_s L rest := by
  simp [rearCandidates, List.filter_cons, hi, hr]

theorem rearCandidates_cons_drop (E : MathEnv K) (prev_size : Nat) (car_s : K) (L : Int)
    (o : TrackedObject K) (rest : List (TrackedObject K))
    (h : laneIndex o.d ≠ some L ∨ isRear car_s (checkS E prev_size o) = false) :
    rearCandidates E prev_size car_s L (o :: rest)
      = rearCandidates E prev_size car_s L rest := by
  rcases h with h | h <;> simp [rearCandidates, List.filter_cons, h]

/-- The front entries of lane `L` after the loop are the running pair over the front
candidates of `L`. -/
theorem occupancyLoop_front_track (E : MathEnv K) (prev_size : Nat) (car_s : K) (L : Int)
    (objs : List (TrackedObject K)) :
    ∀ (st st1 : LaneStats K) (d0 v0 : K),
      occupancyLoop E prev_size car_s st objs = some st1 →
      st.min_dist_front.get? L = some d0 → st.front_speed.get? L = some v0 →
      st1.min_dist_front.get? L
          = some (trackNearest (d0, v0) (frontCandidates E prev_size car_s L objs)).1 ∧
        st1.front_speed.get? L
          = some (trackNearest (d0, v0) (frontCandidates E prev_size car_s L objs)).2 := by
  induction objs with
  | nil =>
    intro st st1 d0 v0 h hd hv
    simp only [occupancyLoop, Option.some.injEq] at h
    subst h
    exact ⟨hd, hv⟩
  | cons o rest ih =>
    intro st st1 d0 v0 h hd hv
    simp only [occupancyLoop] at h
    cases hstep : occupancyStep E prev_size car_s st o with
    | none => simp [hstep] at h
    | some st2 =>
      simp only [hstep] at h
      cases hi : laneIndex o.d with
      | none => simp [occupancyStep, hi] at hstep
      | some i =>
        by_cases hvl : validLane i
        · rcases lt_or_le (checkS E prev_size o) car_s with hr | hr
          · obtain ⟨st3, _, _, _, _, h3, hf, hs, _⟩ :=
              occupancyStep_rear E prev_size car_s st o i hi hvl hr
            rw [hstep, Option.some.injEq] at h3
            subst h3
            have hrear : isRear car_s (checkS E prev_size o) = true := by
              simpa [isRear] using hr
            rw [frontCandidates_cons_drop E prev_size car_s L o rest (Or.inr hrear)]
            exact ih st2 st1 d0 v0 h (by rw [hf]; exact hd) (by rw [hs]; exact hv)
          · obtain ⟨st3, cur, old, hcur, hold, h3, _, _, hmin, hsp, hj⟩ :=
              occupancyStep_front E prev_size car_s st o i hi hvl hr
            rw [hstep, Option.some.injEq] at h3
            subst h3
            have hfront : isRear car_s (checkS E prev_size o) = false := by
              simpa [isRear] using hr
            by_cases hLi : L = i
            · subst hLi
              rw [hd, Option.some.injEq] at hcur
              rw [hv, Option.some.injEq] at hold
              subst hcur
              subst hold
              rw [frontCandidates_cons_keep E prev_size car_s L o rest hi hfront,
                trackNearest_step]
              exact ih st2 st1 _ _ h hmin hsp
            · have hne : laneIndex o.d ≠ some L := by
                rw [hi]
                intro he
                exact hLi (Option.some.inj he).symm
              rw [frontCandidates_cons_drop E prev_size car_s L o rest (Or.inl hne)]
              exact ih st2 st1 d0 v0 h (by rw [(hj L hLi).1]; exact hd)
                (by rw [(hj L hLi).2]; exact hv)
        · rw [occupancyStep_out_of_range E prev_size car_s st o i hi hvl] at hstep
          simp at hstep

/-- The rear entries of lane `L` after the loop are the running pair over the rear
candidates of `L`. -/
theorem occupancyLoop_rear_track (E : MathEnv K) (prev_size : Nat) (car_s : K) (L : Int)
    (objs : List (TrackedObject K)) :
    ∀ (st st1 : LaneStats K) (d0 v0 : K),
      occupancyLoop E prev_size car_s st objs = some st1 →
      st.min_dist_rear.get? L = some d0 → st.rear_speed.get? L = some v0 →
      st1.min_dist_rear.get? L
          = some (trackNearest (d0, v0) (rearCandidates E prev_size car_s L objs)).1 ∧
        st1.rear_speed.get? L
          = some (trackNearest (d0, v0) (rearCandidates E prev_size car_s L objs)).2 := by
  induction objs with
  | nil =>
    intro st st1 d0 v0 h hd hv
    simp only [occupancyLoop, Option.some.injEq] at h
    subst h
    exact ⟨hd, hv⟩
  | cons o rest ih =>
    intro st st1 d0 v0 h hd hv
    simp only [occupancyLoop] at h
    cases hstep : occupancyStep E prev_size car_s st o with
    | none => simp [hstep] at h
    | some st2 =>
      simp only [hstep] at h
      cases hi : laneIndex o.d with
      | none => simp [occupancyStep, hi] at hstep
      | some i =>
        by_cases hvl : validLane i
        · rcases lt_or_le (checkS E prev_size o) car_s with hr | hr
          · obtain ⟨st3, cur, old, hcur, hold, h3, _, _, hmin, hsp, hj⟩ :=
              occupancyStep_rear E prev_size car_s st o i hi hvl hr
            rw [hstep, Option.some.injEq] at h3
            subst h3
            have hrear : isRear car_s (checkS E prev_size o) = true := by
              simpa [isRear] using hr
            by_cases hLi : L = i
            · subst hLi
              rw [hd, Option.some.injEq] at hcur
              rw [hv, Option.some.injEq] at hold
              subst hcur
              subst hold
              rw [rearCandidates_cons_keep E prev_size car_s L o rest hi hrear,
                trackNearest_step]
              exact ih st2 st1 _ _ h hmin hsp
            · have hne : laneIndex o.d ≠ some L := by
                rw [hi]
                intro he
                exact hLi (Option.some.inj he).symm
              rw [rearCandidates_cons_drop E prev_size car_s L o rest (Or.inl hne)]
              exact ih st2 st1 d0 v0 h (by rw [(hj L hLi).1]; exact hd)
                (by rw [(hj L hLi).2]; exact hv)
          · obtain ⟨st3, _, _, _, _, h3, hf, hs, _⟩ :=
              occupancyStep_front E prev_size car_s st o i hi hvl hr
            rw [hstep, Option.some.injEq] at h3
            subst h3
            have hfront : isRear car_s (checkS E prev_size o) = false := by
              simpa [isRear] using hr
            rw [rearCandidates_cons_drop E prev_size car_s L o rest (Or.inr hfront)]
            exact ih st2 st1 d0 v0 h (by rw [hf]; exact hd) (by rw [hs]; exact hv)
        · rw [occupancyStep_out_of_range E prev_size car_s st o i hi hvl] at hstep
          simp at hstep

end NearestLoop

section NearestClaim

theorem checkS_movingObject (s d v : ℝ) :
    checkS realMath 0 (movingObject s d v) = s := by
  simp [checkS, movingObject]

theorem checkSpeed_movingObject (s d v : ℝ) (hv : 0 ≤ v) :
    checkSpeed realMath (movingObject s d v) = v := by
  simp [checkSpeed, movingObject, realMath, Real.sqrt_mul_self hv]

/-- C17 (as stated, refuted): with the ego at `s = 100` and two objects ahead in lane
1, the first at distance 100 with speed 10 and the second at distance 50 with speed
20, the stored front speed of lane 1 is 20, the speed of the nearest object, while
the first object attaining a distance below 200 has speed 10. -/
theorem C17_speed_is_of_the_nearest :
    ∃ st, laneOccupancy realMath 0 (100 : ℝ)
        [movingObject 200 6 10, movingObject 150 6 20] = some st ∧
      st.min_dist_front.get? 1 = some 50 ∧ st.front_speed.get? 1 = some 20 ∧
      frontCandidates realMath 0 (100 : ℝ) 1 [movingObject 200 6 10, movingObject 150 6 20]
        = [(100, 10), (50, 20)] ∧
      firstBelowSpeed (200 : ℝ) 50 [(100, 10), (50, 20)] = 10 := by
  have hi : ∀ s v : ℝ, laneIndex (movingObject s 6 v).d = some 1 := fun _ _ => laneIndex_six
  have hvalid : ∀ o ∈ [movingObject (200 : ℝ) 6 10, movingObject 150 6 20],
      ∃ i, laneIndex o.d = some i ∧ validLane i := by
    intro o ho
    simp only [List.mem_cons, List.mem_singleton, List.not_mem_nil, or_false] at ho
    rcases ho with h | h <;> subst h <;> exact ⟨1, hi _ _, by decide⟩
  have hcands : frontCandidates realMath 0 (100 : ℝ) 1
      [movingObject 200 6 10, movingObject 150 6 20] = [(100, 10), (50, 20)] := by
    rw [frontCandidates_cons_keep realMath 0 100 1 _ _ (hi _ _)
        (by rw [checkS_movingObject]; simp [isRear]; norm_num),
      frontCandidates_cons_keep realMath 0 100 1 _ _ (hi _ _)
        (by rw [checkS_movingObject]; simp [isRear]; norm_num)]
    simp only [checkS_movingObject, checkSpeed_movingObject _ _ _ (by norm_num : (0 : ℝ) ≤ 10),
      checkSpeed_movingObject _ _ _ (by norm_num : (0 : ℝ) ≤ 20), frontCandidates,
      List.filter_nil, List.map_nil]
    norm_num
  obtain ⟨st, hst⟩ := occupancyLoop_total realMath 0 (100 : ℝ) _ LaneStats.init hvalid
  obtain ⟨h1, h2⟩ := occupancyLoop_front_track realMath 0 (100 : ℝ) 1 _ LaneStats.init st
    200 50 hst (by simp [LaneStats.init, Arr3.get?]) (by simp [LaneStats.init, Arr3.get?])
  rw [hcands] at h1 h2
  refine ⟨st, hst, ?_, ?_, hcands, ?_⟩
  · rw [h1]; norm_num [trackNearest]
  · rw [h2]; norm_num [trackNearest]
  · norm_num [firstBelowSpeed, List.find?_cons]

/-- C17 (amended): for every object list whose lane indices are in 0..2 and every lane
`L`, the reduction completes; the front distance of `L` is the minimum of 200 and of
`s_future - ego_s` over the objects of lane `L` not classified as rear, the rear
distance the minimum of 200 and of `ego_s - s_future` over those classified as rear;
the stored front (rear) speed is the speed of the first object attaining that
minimum when the minimum is below 200, and the default 50 (0) otherwise. -/
theorem C17_nearest_vehicle {K : Type} [LinearOrderedField K] [FloorRing K]
    (E : MathEnv K) (prev_size : Nat) (car_s : K)
    (objs : List (TrackedObject K)) (L : Int) (hL : validLane L)
    (hobjs : ∀ o ∈ objs, ∃ i, laneIndex o.d = some i ∧ validLane i) :
    ∃ st, laneOccupancy E prev_size car_s objs = some st ∧
      st.min_dist_front.get? L
        = some (nearestDistance 200 (frontCandidates E prev_size car_s L objs)) ∧
      st.front_speed.get? L
        = some (nearestSpeed 200 50 (frontCandidates E prev_size car_s L objs)) ∧
      st.min_dist_rear.get? L
        = some (nearestDistance 200 (rearCandidates E prev_size car_s L objs)) ∧
      st.rear_speed.get? L
        = some (nearestSpeed 200 0 (rearCandidates E prev_size car_s L objs)) := by
  obtain ⟨st, hst⟩ := occupancyLoop_total E prev_size car_s objs LaneStats.init hobjs
  have hf0 : (LaneStats.init : LaneStats K).min_dist_front.get? L = some 200 := by
    rcases hL with h | h | h <;> subst h <;> simp [LaneStats.init, Arr3.get?]
  have hfs0 : (LaneStats.init : LaneStats K).front_speed.get? L = some 50 := by
    rcases hL with h | h | h <;> subst h <;> simp [LaneStats.init, Arr3.get?]
  have hr0 : (LaneStats.init : LaneStats K).min_dist_rear.get? L = some 200 := by
    rcases hL with h | h | h <;> subst h <;> simp [LaneStats.init, Arr3.get?]
  have hrs0 : (LaneStats.init : LaneStats K).rear_speed.get? L = some 0 := by
    rcases hL with h | h | h <;> subst h <;> simp [LaneStats.init, Arr3.get?]
  obtain ⟨h1, h2⟩ := occupancyLoop_front_track E prev_size car_s L objs LaneStats.init st
    200 50 hst hf0 hfs0
  obtain ⟨h3, h4⟩ := occupancyLoop_rear_track E prev_size car_s L objs LaneStats.init st
    200 0 hst hr0 hrs0
  rw [trackNearest_eq] at h1 h2 h3 h4
  exact ⟨st, hst, h1, h2, h3, h4⟩

theorem C17_nearest_vehicle_witness :
    validLane 1 ∧
    (∀ o ∈ [movingObject (200 : ℝ) 6 10, movingObject 150 6 20],
      ∃ i, laneIndex o.d = some i ∧ validLane i) ∧
    ∃ st, laneOccupancy realMath 0 (100 : ℝ)
        [movingObject 200 6 10, movingObject 150 6 20] = some st ∧
      st.min_dist_front.get? 1 = some (nearestDistance 200 (frontCandidates realMath 0 100 1
        [movingObject 200 6 10, movingObject 150 6 20])) ∧
      st.front_speed.get? 1 = some (nearestSpeed 200 50 (frontCandidates realMath 0 100 1
        [movingObject 200 6 10, movingObject 150 6 20])) ∧
      st.min_dist_rear.get? 1 = some (nearestDistance 200 (rearCandidates realMath 0 100 1
        [movingObject 200 6 10, movingObject 150 6 20])) ∧
      st.rear_speed.get? 1 = some (nearestSpeed 200 0 (rearCandidates realMath 0 100 1
        [movingObject 200 6 10, movingObject 150 6 20])) := by
  have hvalid : ∀ o ∈ [movingObject (200 : ℝ) 6 10, movingObject 150 6 20],
      ∃ i, laneIndex o.d = some i ∧ validLane i := by
    intro o ho
    simp only [List.mem_cons, List.mem_singleton, List.not_mem_nil, or_false] at ho
    rcases ho with h | h <;> subst h <;> exact ⟨1, laneIndex_six, by decide⟩
  exact ⟨by decide, hvalid,
    C17_nearest_vehicle realMath 0 (100 : ℝ) _ 1 (by decide) hvalid⟩

end NearestClaim

section ClosestMinimizer

variable {K : Type} [LinearOrderedField K]

/-- The invariant of the loop of `ClosestWaypoint`: `closestLen` is at most every
distance seen so far and at most 100000, and once it is below 100000 it is the
distance of `closestWaypoint`, the first index that attains it. -/
theorem closestLoop_invariant (E : MathEnv K) (x y : K) (maps_x maps_y : List K)
    (hlen : maps_y.length = maps_x.length) :
    ∀ (n k : Nat) (closestLen : K) (cw : Int), k + n = maps_x.length →
      (∀ j < k, closestLen ≤ distance E x y (maps_x.getD j 0) (maps_y.getD j 0)) →
      (closestLen < 100000 → ∃ c : Nat, cw = (c : Int) ∧ c < k ∧
        distance E x y (maps_x.getD c 0) (maps_y.getD c 0) = closestLen ∧
        ∀ j < c, closestLen < distance E x y (maps_x.getD j 0) (maps_y.getD j 0)) →
      ∃ (res : Int) (len : K),
        closestLoop E x y maps_x maps_y n (k : Int) closestLen cw = some res ∧
        (∀ j < maps_x.length, len ≤ distance E x y (maps_x.getD j 0) (maps_y.getD j 0)) ∧
        (len < 100000 → ∃ c : Nat, res = (c : Int) ∧ c < maps_x.length ∧
          distance E x y (maps_x.getD c 0) (maps_y.getD c 0) = len ∧
          ∀ j < c, len < distance E x y (maps_x.getD j 0) (maps_y.getD j 0)) := by
  intro n
  induction n with
  | zero =>
    intro k len cw hk hall hfirst
    have hkN : k = maps_x.length := by omega
    subst hkN
    exact ⟨cw, len, rfl, hall, hfirst⟩
  | succ n ih =>
    intro k len cw hk hall hfirst
    have hx0 := vecGet_natCast maps_x k (by omega)
    have hy0 := vecGet_natCast maps_y k (by omega)
    simp only [closestLoop, hx0, hy0]
    by_cases hlt : distance E x y (maps_x.getD k 0) (maps_y.getD k 0) < len
    · simp only [hlt, if_true]
      have := ih (k + 1) (distance E x y (maps_x.getD k 0) (maps_y.getD k 0)) (k : Int)
        (by omega)
        (by
          intro j hj
          rcases Nat.lt_succ_iff_lt_or_eq.mp hj with h | h
          · exact le_of_lt (lt_of_lt_of_le hlt (hall j h))
          · subst h; exact le_refl _)
        (by
          intro _
          exact ⟨k, rfl, Nat.lt_succ_self k, rfl,
            fun j hj => lt_of_lt_of_le hlt (hall j hj)⟩)
      simpa using this
    · simp only [hlt, if_false]
      have := ih (k + 1) len cw (by omega)
        (by
          intro j hj
          rcases Nat.lt_succ_iff_lt_or_eq.mp hj with h | h
          · exact hall j h
          · subst h; exact not_lt.mp hlt)
        (by
          intro h
          obtain ⟨c, hc, hck, hd, hmin⟩ := hfirst h
          exact ⟨c, hc, Nat.lt_succ_of_lt hck, hd, hmin⟩)
      simpa using this

/-- When some waypoint is less than 100000 away, `ClosestWaypoint` returns the first
index of a waypoint at the smallest distance. -/
theorem closestWaypoint_minimizer (E : MathEnv K) (x y : K) (maps_x maps_y : List K)
    (hlen : maps_y.length = maps_x.length) (j0 : Nat) (hj0 : j0 < maps_x.length)
    (hnear : distance E x y (maps_x.getD j0 0) (maps_y.getD j0 0) < 100000) :
    ∃ c : Nat, ClosestWaypoint E x y maps_x maps_y = some (c : Int) ∧ c < maps_x.length ∧
      (∀ j < maps_x.length, distance E x y (maps_x.getD c 0) (maps_y.getD c 0)
        ≤ distance E x y (maps_x.getD j 0) (maps_y.getD j 0)) ∧
      (∀ j < c, distance E x y (maps_x.getD c 0) (maps_y.getD c 0)
        < distance E x y (maps_x.getD j 0) (maps_y.getD j 0)) := by
  obtain ⟨res, len, hres, hall, hfirst⟩ :=
    closestLoop_invariant E x y maps_x maps_y hlen maps_x.length 0 100000 0 (by omega)
      (fun j hj => absurd hj (Nat.not_lt_zero j))
      (fun h => absurd h (lt_irrefl _))
  obtain ⟨c, hc, hcN, hd, hmin⟩ := hfirst (lt_of_le_of_lt (hall j0 hj0) hnear)
  subst hc
  refine ⟨c, by simpa [ClosestWaypoint] using hres, hcN, ?_, ?_⟩
  · rw [hd]; exact hall
  · rw [hd]; exact hmin

end ClosestMinimizer

section ScanLemmas

variable {K : Type} [LinearOrderedField K]

/-- For an `s` not above the first `maps_s` the scan leaves `prev_wp = -1` and `getXY`
reads its vectors at index -1. -/
theorem getXY_none_of_le_first (E : MathEnv K) (s d : K) (maps_s maps_x maps_y : List K)
    (hN : 0 < maps_s.length) (hs : s ≤ maps_s.getD 0 0) :
    getXY E s d maps_s maps_x maps_y = none := by
  have hread := vecGet_natCast maps_s 0 hN
  simp only [Nat.cast_zero] at hread
  have hcond : ¬ (s > maps_s.getD 0 0 ∧ (-1 : Int) < (maps_s.length : Int) - 1) :=
    fun h => absurd (lt_of_lt_of_le h.1 hs) (lt_irrefl _)
  have hscan : scanLoop s maps_s (maps_s.length + 1) (-1) = some (-1) := by
    simp only [scanLoop, neg_add_cancel, hread, hcond, if_false]
  have hneg : ∀ v : List K, vecGet? v (-1) = none := by
    intro v
    simp [vecGet?]
  simp only [getXY, hscan, hneg]
  split_ifs
  · rfl
  · generalize vecGet? maps_y ((-1 + 1) % (maps_x.length : Int)) = a
    cases a <;> rfl

/-- For an `s` above every `maps_s` the scan reads `maps_s` one past its end. -/
theorem scanLoop_none_of_gt_all (s : K) (maps_s : List K)
    (hall : ∀ j < maps_s.length, maps_s.getD j 0 < s) :
    ∀ (n p m : Nat), p + n = maps_s.length → n + 1 ≤ m →
      scanLoop s maps_s m ((p : Int) - 1) = none := by
  intro n
  induction n with
  | zero =>
    intro p m hp hm
    obtain ⟨m, rfl⟩ : ∃ m1, m = m1 + 1 := ⟨m - 1, by omega⟩
    have hread : vecGet? maps_s ((p : Int) - 1 + 1) = none := by
      have h0 : (0 : Int) ≤ (p : Int) := Int.natCast_nonneg p
      simp only [sub_add_cancel, vecGet?, h0, if_true, Int.toNat_natCast]
      rw [List.get?_eq_getElem?, List.getElem?_eq_none]
      omega
    simp only [scanLoop, hread]
  | succ n ih =>
    intro p m hp hm
    obtain ⟨m, rfl⟩ : ∃ m1, m = m1 + 1 := ⟨m - 1, by omega⟩
    have hread := vecGet_natCast maps_s p (by omega)
    have hcond : s > maps_s.getD p 0 ∧ ((p : Int) - 1) < (maps_s.length : Int) - 1 :=
      ⟨hall p (by omega), by omega⟩
    simp only [scanLoop, sub_add_cancel, hread, hcond, if_true, and_self]
    have := ih (p + 1) m (by omega) (by omega)
    simpa using this

theorem getXY_none_of_gt_all (E : MathEnv K) (s d : K) (maps_s maps_x maps_y : List K)
    (hall : ∀ j < maps_s.length, maps_s.getD j 0 < s) :
    getXY E s d maps_s maps_x maps_y = none := by
  have hscan : scanLoop s maps_s (maps_s.length + 1) (-1) = none := by
    have := scanLoop_none_of_gt_all s maps_s hall maps_s.length 0 (maps_s.length + 1)
      (by omega) (by omega)
    simpa using this
  simp only [getXY, hscan]

end ScanLemmas

section ClosestMinimizerClaim

/-- C12 (amended): for every waypoint list with as many x as y values in which some
waypoint is less than 100000 away from the query point, `ClosestWaypoint` returns an
index `c` of the list whose distance to the query point is at most that of every
waypoint, and strictly below that of every waypoint before `c`: the smallest index
attaining the minimum. -/
theorem C12_closest_is_first_minimizer {K : Type} [LinearOrderedField K]
    (E : MathEnv K) (x y : K) (maps_x maps_y : List K)
    (hlen : maps_y.length = maps_x.length) (j0 : Nat) (hj0 : j0 < maps_x.length)
    (hnear : distance E x y (maps_x.getD j0 0) (maps_y.getD j0 0) < 100000) :
    ∃ c : Nat, ClosestWaypoint E x y maps_x maps_y = some (c : Int) ∧ c < maps_x.length ∧
      (∀ j < maps_x.length, distance E x y (maps_x.getD c 0) (maps_y.getD c 0)
        ≤ distance E x y (maps_x.getD j 0) (maps_y.getD j 0)) ∧
      (∀ j < c, distance E x y (maps_x.getD c 0) (maps_y.getD c 0)
        < distance E x y (maps_x.getD j 0) (maps_y.getD j 0)) :=
  closestWaypoint_minimizer E x y maps_x maps_y hlen j0 hj0 hnear

theorem C12_closest_is_first_minimizer_witness :
    (straightY : List ℝ).length = (straightX : List ℝ).length ∧
    0 < (straightX : List ℝ).length ∧
    distance realMath (8 : ℝ) 0 ((straightX : List ℝ).getD 0 0)
      ((straightY : List ℝ).getD 0 0) < 100000 ∧
    ∃ c : Nat, ClosestWaypoint realMath (8 : ℝ) 0 straightX straightY = some (c : Int) ∧
      c < (straightX : List ℝ).length ∧
      (∀ j < (straightX : List ℝ).length,
        distance realMath (8 : ℝ) 0 ((straightX : List ℝ).getD c 0)
            ((straightY : List ℝ).getD c 0)
          ≤ distance realMath (8 : ℝ) 0 ((straightX : List ℝ).getD j 0)
            ((straightY : List ℝ).getD j 0)) ∧
      (∀ j < c,
        distance realMath (8 : ℝ) 0 ((straightX : List ℝ).getD c 0)
            ((straightY : List ℝ).getD c 0)
          < distance realMath (8 : ℝ) 0 ((straightX : List ℝ).getD j 0)
            ((straightY : List ℝ).getD j 0)) := by
  have h8 : Real.sqrt 64 = 8 := by
    rw [show (64 : ℝ) = 8 * 8 by norm_num]
    exact Real.sqrt_mul_self (by norm_num)
  have hnear : distance realMath (8 : ℝ) 0 ((straightX : List ℝ).getD 0 0)
      ((straightY : List ℝ).getD 0 0) < 100000 := by
    simp only [distance, realMath, straightX, straightY]
    norm_num [h8]
  exact ⟨rfl, by simp [straightX], hnear,
    C12_closest_is_first_minimizer realMath 8 0 straightX straightY rfl 0
      (by simp [straightX]) hnear⟩

end ClosestMinimizerClaim

end HighwayDriving
